import Mathlib

/-!
Verification of the DEGARI-Music pipeline against its specification.

The development shallowly embeds the three core components of the repository:

* the Prototype Matcher (`Sistema di raccomandazione/Classificatore/Recommender.py`,
  function `elaboraGraduatoria` and its helpers),
* the Prototype Builder (`Creazione dei prototipi/prototyper.py`,
  function `insertArtworkInDict` and the scoring loop of `main`),
* the Category Profile Distiller (`Sistema di raccomandazione/BuildTypicalRigid.py`,
  function `main` and its helpers).

Modelling conventions, used throughout:

* Python floats are modelled as rationals (`ℚ`); `round(x, n)` is modelled as
  rounding to the nearest multiple of `10^-n` (Python uses round-half-even on
  binary floats; no computation below hits an exact half-way case).
* Python strings are Lean `String`s; the string primitives that the code uses
  (`lower`, `strip`, substring containment, character removal) are implemented
  here directly on character lists, mirroring their Python semantics.
* Python dicts and `collections.Counter` objects are insertion-ordered
  association lists (`List (String × α)`), exactly as CPython guarantees.
* Python sets are used by the code only (a) for membership tests, modelled by
  list membership, and (b) as iterables whose iteration order is unspecified
  (it depends on the process hash seed); where that order is observable it is
  modelled as an explicit enumeration parameter.
* External capabilities (the TreeTagger POS tagger and lemmatizer, NLTK
  tokenization and stopword lists, on-disk prototype artifacts) are modelled
  as parameters, since they are outside the repository.
-/

namespace DegariMusic

/-! ## Shared string and list helpers -/

/-- Characters that the code strips from instance identifiers before using
them as filenames (`chars_not_allowed_in_filename` in `Recommender.py`,
`CHARS_NOT_ALLOWED` in `prototyper.py`): `\ / : * ? " < > |`. -/
def badChars : List Char :=
  [Char.ofNat 92, Char.ofNat 47, Char.ofNat 58, Char.ofNat 42, Char.ofNat 63,
   Char.ofNat 34, Char.ofNat 60, Char.ofNat 62, Char.ofNat 124]

/-- The ASCII apostrophe character. -/
def apoChar : Char := Char.ofNat 39

/-- The underscore character. -/
def usChar : Char := Char.ofNat 95

/-- Decides whether `pat` is a prefix of `s` (on character lists). -/
def prefixChars : List Char → List Char → Bool
  | [], _ => true
  | _ :: _, [] => false
  | a :: as, b :: bs => (a = b) && prefixChars as bs

/-- Decides whether `pat` occurs contiguously inside `s`: Python's
`pat in s` on strings. -/
def infixChars (pat : List Char) : List Char → Bool
  | [] => prefixChars pat []
  | c :: rest => prefixChars pat (c :: rest) || infixChars pat rest

/-- Python `pat in s` for strings. -/
def strContains (s pat : String) : Bool := infixChars pat.toList s.toList

/-- Lower-cases one ASCII character (Python `str.lower` restricted to the
ASCII letters actually manipulated by this code base). -/
def charLower (c : Char) : Char := if c.isUpper then Char.ofNat (c.toNat + 32) else c

/-- Python `s.lower()`. -/
def pyLower (s : String) : String := String.mk (s.toList.map charLower)

/-- Python `s.strip()` (remove leading and trailing whitespace). -/
def pyTrim (s : String) : String :=
  String.mk (((s.toList.dropWhile Char.isWhitespace).reverse.dropWhile Char.isWhitespace).reverse)

/-- Python `s.strip(chars)`: remove leading and trailing characters drawn
from the set `cs`. -/
def pyStrip (cs : List Char) (s : String) : String :=
  String.mk (((s.toList.dropWhile (· ∈ cs)).reverse.dropWhile (· ∈ cs)).reverse)

/-- Python `round(x, 3)`, on rationals. -/
def round3 (q : ℚ) : ℚ := (round (q * 1000) : ℚ) / 1000

/-- Python `round(x, 2)`, on rationals. -/
def round2 (q : ℚ) : ℚ := (round (q * 100) : ℚ) / 100

/-- Python `int(x)` on a float: truncation toward zero. -/
def pyInt (q : ℚ) : ℤ := if q < 0 then ⌈q⌉ else ⌊q⌋

/-- Lookup in an insertion-ordered association list (Python `d[k]` /
`k in d`). -/
def alookup {α : Type} (l : List (String × α)) (k : String) : Option α :=
  (l.find? (fun p => p.1 == k)).map (fun p => p.2)

/-- First-seen-order deduplication, the order-preserving part of
`dict.fromkeys` / first insertion into a `Counter`. -/
def dedupAux : List String → List String → List String
  | _, [] => []
  | seen, x :: xs => if x ∈ seen then dedupAux seen xs else x :: dedupAux (x :: seen) xs

/-- Deduplicate a list of strings keeping first occurrences in order. -/
def dedupFS (l : List String) : List String := dedupAux [] l

/-! ## The Prototype Matcher (`Recommender.py`) -/

namespace Recommender

/-- Value of `cfg.instanceID` in `Recommender_config.py`. -/
def idKey : String := "ID"

/-- Value of `cfg.instanceDescr` in `Recommender_config.py`. -/
def instanceDescr : List String :=
  ["lyrics", "tags", "moods", "instruments", "subgenres", "contexts",
   "artist", "album", "year"]

/-- Value of `cfg.instanceTitle` in `Recommender_config.py`. -/
def instanceTitle : List String := ["title", "artist"]

/-- One catalog record, as read from the JSON description file.  Each present
field is listed with its value already flattened to text by `as_text`
(lists joined by spaces, `None` as the empty string); an absent field is an
absent key, matching the code's `fld in instance` checks. -/
structure Inst where
  fields : List (String × String)
deriving DecidableEq

/-- Field access `instance[f]` guarded by `f in instance`. -/
def getF (i : Inst) (f : String) : Option String :=
  (i.fields.find? (fun p => p.1 == f)).map (fun p => p.2)

/-- Single space, used for the word padding in `contains_word`. -/
def sp : String := " "

/-- Single comma. -/
def commaStr : String := ","

/-- Function `contains_word(s, w)` of `Recommender.py`: pads both the field
text and the needle with spaces and tests substring containment.  Note the
faithful quirk: the second disjunct re-pads the *already padded* needle
(`w` has been reassigned to `" w "` before `str(w)` is used again), so it
looks for `"  w ,"`. -/
def contains_word (s w : String) : Bool :=
  let s2 := sp ++ s ++ sp
  let w2 := sp ++ w ++ sp
  strContains s2 w2 || strContains s2 (sp ++ w2 ++ commaStr)

/-- Containment of property `w` in any of the fields `flds` of the record
(the repeated `if fld in instance and contains_word(...)` pattern). -/
def fieldHit (i : Inst) (flds : List String) (w : String) : Bool :=
  flds.any (fun f =>
    match getF i f with
    | some v => contains_word v w
    | none => false)

/-- One iteration of the coverage loop: property `p` is found in the
descriptive fields, or failing that in the title/artist fields. -/
def propMatch (i : Inst) (p : String) : Bool :=
  fieldHit i instanceDescr p || fieldHit i instanceTitle p

/-- The `matches` list accumulated by the coverage loop of
`elaboraGraduatoria` (before the negation check). -/
def matchesOf (i : Inst) (names : List String) : List String :=
  names.filter (fun p => propMatch i p)

/-- The `anchor_hits` set: distinct matched properties that are anchors.
It is a Python `set`; only its cardinality is consumed. -/
def anchorHitsOf (i : Inst) (names anchors : List String) : List String :=
  dedupFS ((matchesOf i names).filter (fun p => p ∈ anchors))

/-- The negation loop: some negated property occurs in a descriptive field,
or in the first title field (`cfg.instanceTitle[0]`, i.e. `"title"`). -/
def negHit (i : Inst) (negs : List String) : Bool :=
  negs.any (fun p =>
    fieldHit i instanceDescr p ||
      (match getF i ("title") with
       | some v => contains_word v p
       | none => false))

/-- Number of entries of `matches` surviving the negation check
(`matches.clear()` empties the list when a negated property is hit). -/
def effMatchCount (i : Inst) (names negs : List String) : ℕ :=
  if negHit i negs then 0 else (matchesOf i names).length

/-- The coverage threshold test of line 208 of `Recommender.py`:
`len(names_only) > 0 and int(len(matches)) >= int(len(names_only) * min_match_rate)`.
Note `int(...)` truncates (floor for nonnegative values): the code compares
against the *floor* of `len(active) * min_match_rate`, not its ceiling. -/
def enoughCoverage (i : Inst) (names negs : List String) (rate : ℚ) : Bool :=
  decide (0 < names.length) &&
    decide (pyInt ((names.length : ℚ) * rate) ≤ (effMatchCount i names negs : ℤ))

/-- The anchor threshold test of line 209: `len(anchor_hits) >= min_anchors`. -/
def enoughAnchors (i : Inst) (names anchors : List String) (minAnchors : ℕ) : Bool :=
  decide (minAnchors ≤ (anchorHitsOf i names anchors).length)

/-- Admission of one record into `lista_istanze` (the annotated result list):
both threshold tests pass. -/
def admitted (i : Inst) (names anchors negs : List String) (rate : ℚ) (minAnchors : ℕ) : Bool :=
  enoughCoverage i names negs rate && enoughAnchors i names anchors minAnchors

/-- Identifier sanitization applied to `instance[cfg.instanceID]`: remove the
characters illegal in filenames, then replace apostrophes by underscores. -/
def sanitize (s : String) : String :=
  String.mk ((s.toList.filter (fun c => ¬ c ∈ badChars)).map
    (fun c => if c = apoChar then usChar else c))

/-- Sanitized identifier of a record, when it carries the `ID` key. -/
def idOf (i : Inst) : Option String := (getF i idKey).map sanitize

/-- Title boost of the score-accumulation pass: `0.1` as soon as any active
property occurs (via `contains_word`) in a present title/artist field. -/
def titleBoost (i : Inst) (names : List String) : ℚ :=
  if names.any (fun p =>
      instanceTitle.any (fun t =>
        match getF i t with
        | some v => contains_word v p
        | none => false)) then 1/10 else 0

/-- A persisted prototype artifact, modelled post-parsing: the lines of the
file that split into at least two `:`-separated parts, each as its stripped
key together with the parsed score (`none` when `float(...)` raises
`ValueError`, in which case the code adds `0.0`).  The whole artifact store
is a partial map from sanitized identifiers, `none` meaning
`os.path.exists` fails. -/
def ProtoStore : Type := String → Option (List (String × Option ℚ))

/-- Sum of prototype weights for the active properties: for every parsed
line whose key equals an active property name (`contains_value`), add the
score rounded to two decimals. -/
def protoSum (protos : ProtoStore) (names : List String) (id : String) : ℚ :=
  match protos id with
  | none => 0
  | some lines =>
    lines.foldl (fun acc kv =>
      if kv.1 ∈ names then
        acc + (match kv.2 with
               | some q => round2 q
               | none => 0)
      else acc) 0

/-- Total score assigned to a record the first time its identifier is seen:
title boost plus prototype-weight sum. -/
def recordScore (protos : ProtoStore) (names : List String) (i : Inst) (id : String) : ℚ :=
  titleBoost i names + protoSum protos names id

/-- One step of the score-accumulation loop: records without the `ID` key are
skipped; a record whose sanitized identifier is already a key of
`graduatoria` is skipped (`if inst_id not in graduatoria`); otherwise the
identifier is bound to the record's score. -/
def scoreStep (protos : ProtoStore) (names : List String)
    (grad : List (String × ℚ)) (i : Inst) : List (String × ℚ) :=
  match idOf i with
  | none => grad
  | some id =>
    if (alookup grad id).isSome then grad
    else grad ++ [(id, recordScore protos names i id)]

/-- The whole score-accumulation pass (`graduatoria` after the first loop of
`elaboraGraduatoria`). -/
def scorePass (protos : ProtoStore) (names : List String) (data : List Inst) :
    List (String × ℚ) :=
  data.foldl (scoreStep protos names) []

/-- One step of the filter loop's effect on `graduatoria`: a record that
fails the thresholds has its score overwritten with `0.0`
(the `elif inst_id in graduatoria and ...` branch); an admitted record
leaves the scores untouched. -/
def zeroStep (names anchors negs : List String) (rate : ℚ) (minAnchors : ℕ)
    (grad : List (String × ℚ)) (i : Inst) : List (String × ℚ) :=
  match idOf i with
  | none => grad
  | some id =>
    if admitted i names anchors negs rate minAnchors then grad
    else if (alookup grad id).isSome then
      grad.map (fun p => if p.1 == id then (p.1, 0) else p)
    else grad

/-- Effect of the whole filter loop on `graduatoria`. -/
def zeroPass (names anchors negs : List String) (rate : ℚ) (minAnchors : ℕ)
    (grad : List (String × ℚ)) (data : List Inst) : List (String × ℚ) :=
  data.foldl (zeroStep names anchors negs rate minAnchors) grad

/-- Final scores after both passes of `elaboraGraduatoria`. -/
def finalScores (protos : ProtoStore) (names anchors negs : List String)
    (rate : ℚ) (minAnchors : ℕ) (data : List Inst) : List (String × ℚ) :=
  zeroPass names anchors negs rate minAnchors (scorePass protos names data) data

/-- The admission condition exactly as the specification states it for claim
C1: not negated, `len(matches) ≥ ceil(len(active) * min_match_rate)`, and
`len(anchor_hits) ≥ min_anchors`. -/
def specAdmission (i : Inst) (names anchors negs : List String) (rate : ℚ)
    (minAnchors : ℕ) : Prop :=
  ¬ negHit i negs = true ∧
    ⌈(names.length : ℚ) * rate⌉ ≤ ((matchesOf i names).length : ℤ) ∧
    minAnchors ≤ (anchorHitsOf i names anchors).length

end Recommender

/-! ### Association list lemmas for the two passes -/

lemma alookup_append {α : Type} (l₁ l₂ : List (String × α)) (a : String) :
    alookup (l₁ ++ l₂) a = (alookup l₁ a).or (alookup l₂ a) := by
  induction l₁ with
  | nil => simp [alookup]
  | cons p t ih =>
    cases hpa : (p.1 == a)
    · simp only [List.cons_append, alookup, List.find?, hpa]
      simpa [alookup] using ih
    · simp [alookup, List.find?, hpa]

lemma alookup_single {α : Type} (b a : String) (v : α) :
    alookup [(b, v)] a = if b == a then some v else none := by
  cases h : (b == a) <;> simp [alookup, List.find?, h]

lemma alookup_map_zero (grad : List (String × ℚ)) (a b : String) :
    alookup (grad.map (fun p => if p.1 == b then (p.1, 0) else p)) a =
      (alookup grad a).map (fun v => if a = b then 0 else v) := by
  induction grad with
  | nil => simp [alookup]
  | cons p t ih =>
    cases hpa : (p.1 == a)
    · have hka : ((if p.1 == b then (p.1, (0 : ℚ)) else p).1 == a) = false := by
        cases hpb : (p.1 == b) <;> simp [hpb, hpa]
      simp only [List.map_cons, alookup, List.find?] at *
      rw [hka, hpa] at *
      simpa [alookup] using ih
    · have hp1 : p.1 = a := by simpa using hpa
      cases hpb : (p.1 == b)
      · have hab : ¬ a = b := by
          intro h; apply absurd hpb; simp [hp1, h]
        simp [alookup, List.find?, hpb, hpa, hab]
      · have hab : a = b := by
          have := (beq_iff_eq).mp hpb; rw [← hp1, this]
        simp [alookup, List.find?, hpb, hpa, hab]

lemma alookup_map_zero' (grad : List (String × ℚ)) (a b : String) :
    alookup (grad.map (fun p => if p.1 = b then (p.1, 0) else p)) a =
      (alookup grad a).map (fun v => if a = b then 0 else v) := by
  have h := alookup_map_zero grad a b
  have heq : (fun p : String × ℚ => if p.1 == b then (p.1, (0 : ℚ)) else p) =
      (fun p : String × ℚ => if p.1 = b then (p.1, (0 : ℚ)) else p) := by
    funext p
    by_cases hp : p.1 = b
    · simp [hp]
    · simp [hp]
  rwa [heq] at h

lemma alookup_map_set {α : Type} (l : List (String × α)) (a b : String) (c : α) :
    alookup (l.map (fun p => if p.1 == b then (p.1, c) else p)) a =
      (alookup l a).map (fun v => if a = b then c else v) := by
  induction l with
  | nil => simp [alookup]
  | cons p t ih =>
    cases hpa : (p.1 == a)
    · have hka : ((if p.1 == b then (p.1, c) else p).1 == a) = false := by
        cases hpb : (p.1 == b) <;> simp [hpb, hpa]
      simp only [List.map_cons, alookup, List.find?] at *
      rw [hka, hpa] at *
      simpa [alookup] using ih
    · have hp1 : p.1 = a := by simpa using hpa
      cases hpb : (p.1 == b)
      · have hab : ¬ a = b := by
          intro h; apply absurd hpb; simp [hp1, h]
        simp [alookup, List.find?, hpb, hpa, hab]
      · have hab : a = b := by
          have := (beq_iff_eq).mp hpb; rw [← hp1, this]
        simp [alookup, List.find?, hpb, hpa, hab]

/-! ### The score-accumulation pass -/

lemma scorePass_go (protos : Recommender.ProtoStore) (names : List String)
    (l : List Recommender.Inst) (grad : List (String × ℚ)) (a : String) :
    alookup (l.foldl (Recommender.scoreStep protos names) grad) a =
      (alookup grad a).or
        ((l.find? (fun i => Recommender.idOf i == some a)).map
          (fun i => Recommender.recordScore protos names i a)) := by
  induction l generalizing grad with
  | nil => simp
  | cons i t ih =>
    simp only [List.foldl_cons]
    cases hid : Recommender.idOf i with
    | none =>
      have hstep : Recommender.scoreStep protos names grad i = grad := by
        simp [Recommender.scoreStep, hid]
      have hfind : (Recommender.idOf i == some a) = false := by simp [hid]
      rw [hstep, ih, List.find?_cons, hfind]
    | some b =>
      by_cases hba : b = a
      · subst hba
        have hfind : (Recommender.idOf i == some b) = true := by simp [hid]
        rw [List.find?_cons, hfind]
        cases hg : alookup grad b with
        | some v =>
          have hstep : Recommender.scoreStep protos names grad i = grad := by
            simp [Recommender.scoreStep, hid, hg]
          rw [hstep, ih, hg]
          simp
        | none =>
          have hstep : Recommender.scoreStep protos names grad i =
              grad ++ [(b, Recommender.recordScore protos names i b)] := by
            simp [Recommender.scoreStep, hid, hg]
          rw [hstep, ih, alookup_append, hg, alookup_single]
          simp
      · have hfind : (Recommender.idOf i == some a) = false := by
          simp [hid]; exact hba
        rw [List.find?_cons, hfind]
        cases hg : alookup grad b with
        | some v =>
          have hstep : Recommender.scoreStep protos names grad i = grad := by
            simp [Recommender.scoreStep, hid, hg]
          rw [hstep, ih]
        | none =>
          have hstep : Recommender.scoreStep protos names grad i =
              grad ++ [(b, Recommender.recordScore protos names i b)] := by
            simp [Recommender.scoreStep, hid, hg]
          have hbne : (b == a) = false := by simpa using hba
          rw [hstep, ih, alookup_append, alookup_single, hbne]
          simp

/-- Accumulated score of an identifier: the record score of the first catalog
record bearing it, if any. -/
lemma scorePass_lookup (protos : Recommender.ProtoStore) (names : List String)
    (data : List Recommender.Inst) (a : String) :
    alookup (Recommender.scorePass protos names data) a =
      ((data.find? (fun i => Recommender.idOf i == some a)).map
        (fun i => Recommender.recordScore protos names i a)) := by
  have h := scorePass_go protos names data [] a
  simpa [Recommender.scorePass, alookup] using h

/-! ### The filter pass -/

lemma zeroStep_keeps_zero (names anchors negs : List String) (rate : ℚ) (minAnchors : ℕ)
    (grad : List (String × ℚ)) (i : Recommender.Inst) (a : String)
    (h : alookup grad a = some 0) :
    alookup (Recommender.zeroStep names anchors negs rate minAnchors grad i) a = some 0 := by
  cases hid : Recommender.idOf i with
  | none => simpa [Recommender.zeroStep, hid] using h
  | some b =>
    by_cases hadm : Recommender.admitted i names anchors negs rate minAnchors = true
    · simpa [Recommender.zeroStep, hid, hadm] using h
    · cases hg : (alookup grad b).isSome
      · simpa [Recommender.zeroStep, hid, hadm, hg] using h
      · have : alookup (Recommender.zeroStep names anchors negs rate minAnchors grad i) a =
            (alookup grad a).map (fun v => if a = b then 0 else v) := by
          simp [Recommender.zeroStep, hid, hadm, hg, alookup_map_zero, alookup_map_zero']
        rw [this, h]
        by_cases hab : a = b <;> simp [hab]

lemma zeroPass_keeps_zero (names anchors negs : List String) (rate : ℚ) (minAnchors : ℕ)
    (data : List Recommender.Inst) (grad : List (String × ℚ)) (a : String)
    (h : alookup grad a = some 0) :
    alookup (Recommender.zeroPass names anchors negs rate minAnchors grad data) a = some 0 := by
  induction data generalizing grad with
  | nil => simpa [Recommender.zeroPass] using h
  | cons i t ih =>
    simp only [Recommender.zeroPass, List.foldl_cons]
    exact ih _ (zeroStep_keeps_zero _ _ _ _ _ _ _ _ h)

lemma zeroStep_isSome (names anchors negs : List String) (rate : ℚ) (minAnchors : ℕ)
    (grad : List (String × ℚ)) (i : Recommender.Inst) (a : String)
    (h : (alookup grad a).isSome = true) :
    (alookup (Recommender.zeroStep names anchors negs rate minAnchors grad i) a).isSome = true := by
  cases hid : Recommender.idOf i with
  | none => simpa [Recommender.zeroStep, hid] using h
  | some b =>
    by_cases hadm : Recommender.admitted i names anchors negs rate minAnchors = true
    · simpa [Recommender.zeroStep, hid, hadm] using h
    · cases hg : (alookup grad b).isSome
      · simpa [Recommender.zeroStep, hid, hadm, hg] using h
      · have heq : alookup (Recommender.zeroStep names anchors negs rate minAnchors grad i) a =
            (alookup grad a).map (fun v => if a = b then 0 else v) := by
          simp [Recommender.zeroStep, hid, hadm, hg, alookup_map_zero, alookup_map_zero']
        rw [heq]
        simpa using h

lemma zeroPass_zeroes (names anchors negs : List String) (rate : ℚ) (minAnchors : ℕ)
    (data : List Recommender.Inst) (grad : List (String × ℚ)) (a : String)
    (hsome : (alookup grad a).isSome = true)
    (hex : ∃ i ∈ data, Recommender.idOf i = some a ∧
      Recommender.admitted i names anchors negs rate minAnchors = false) :
    alookup (Recommender.zeroPass names anchors negs rate minAnchors grad data) a = some 0 := by
  induction data generalizing grad with
  | nil => obtain ⟨i, hi, _⟩ := hex; simp at hi
  | cons j t ih =>
    obtain ⟨i, hi, hid, hadm⟩ := hex
    simp only [Recommender.zeroPass, List.foldl_cons]
    rcases List.mem_cons.mp hi with hji | hit
    · subst hji
      have hz : alookup (Recommender.zeroStep names anchors negs rate minAnchors grad i) a
          = some 0 := by
        have heq : alookup (Recommender.zeroStep names anchors negs rate minAnchors grad i) a =
            (alookup grad a).map (fun v => if a = a then 0 else v) := by
          simp [Recommender.zeroStep, hid, hadm, hsome, alookup_map_zero, alookup_map_zero']
        rw [heq]
        obtain ⟨v, hv⟩ := Option.isSome_iff_exists.mp hsome
        simp [hv]
      exact zeroPass_keeps_zero _ _ _ _ _ _ _ _ hz
    · exact ih _ (zeroStep_isSome _ _ _ _ _ _ _ _ hsome) ⟨i, hit, hid, hadm⟩

/-- Negated records fail the coverage check whenever the floor threshold is
at least one. -/
lemma negHit_admitted_false (i : Recommender.Inst) (names anchors negs : List String)
    (rate : ℚ) (minAnchors : ℕ)
    (hneg : Recommender.negHit i negs = true)
    (hthr : 1 ≤ pyInt ((names.length : ℚ) * rate)) :
    Recommender.admitted i names anchors negs rate minAnchors = false := by
  have hcnt : Recommender.effMatchCount i names negs = 0 := by
    simp [Recommender.effMatchCount, hneg]
  have hnot : ¬ (pyInt ((names.length : ℚ) * rate) ≤
      (Recommender.effMatchCount i names negs : ℤ)) := by
    rw [hcnt]; omega
  simp [Recommender.admitted, Recommender.enoughCoverage, hnot]

namespace Recommender

/-- Concrete active-property set of size ten used for claim C1. -/
def namesTen : List String :=
  ["p1", "p2", "p3", "p4", "p5", "p6", "p7", "p8", "p9", "p10"]

/-- Record whose lyrics match exactly the single active property `p1`. -/
def instOneHit : Inst := ⟨[("ID", "t1"), ("lyrics", "p1")]⟩

/-- Claim C1, counterexample: with `min_match_rate = 0.15`, `min_anchors = 1`
and ten active properties of which `p1` is an anchor, a record matching only
`p1` is admitted by the code (the coverage check uses
`int(10 * 0.15) = 1`, truncation), although the claim's ceiling-based
condition (`1 ≥ ceil(1.5) = 2`) demands that it not be admitted. -/
theorem claim_C1_counterexample :
    admitted instOneHit namesTen ["p1"] [] (3/20) 1 = true ∧
    ¬ specAdmission instOneHit namesTen ["p1"] [] (3/20) 1 := by
  have hn : negHit instOneHit [] = false := by decide
  have hm : matchesOf instOneHit namesTen = ["p1"] := by decide
  have ha : anchorHitsOf instOneHit namesTen ["p1"] = ["p1"] := by decide
  have hlen : namesTen.length = 10 := by decide
  constructor
  · have hfloor : pyInt ((10 : ℚ) * (3/20)) = 1 := by norm_num [pyInt]
    simp [admitted, enoughCoverage, enoughAnchors, effMatchCount, hn, hm, ha, hlen, hfloor]
  · intro h
    obtain ⟨-, h2, -⟩ := h
    rw [hm, hlen] at h2
    norm_num at h2
    have hce : ⌈(3 : ℚ)/2⌉ = 2 := by
      rw [Int.ceil_eq_iff]
      norm_num
    rw [hce] at h2
    norm_num at h2

/-- Claim C1, amended: a record enters the annotated result list iff the
active-property set is non-empty, the number of matches surviving the
negation check (negation clears the match list) is at least the *floor* of
`len(active) * min_match_rate` (Python `int()` truncation), and the number
of distinct matched anchors is at least `min_anchors`. -/
theorem claim_C1_amended (i : Inst) (names anchors negs : List String) (rate : ℚ)
    (minAnchors : ℕ) :
    admitted i names anchors negs rate minAnchors = true ↔
      (names ≠ [] ∧
       pyInt ((names.length : ℚ) * rate) ≤
         ((if negHit i negs then 0 else (matchesOf i names).length : ℕ) : ℤ) ∧
       minAnchors ≤ (anchorHitsOf i names anchors).length) := by
  constructor
  · intro h
    rw [admitted, Bool.and_eq_true, enoughCoverage, Bool.and_eq_true, enoughAnchors] at h
    obtain ⟨⟨h1, h2⟩, h3⟩ := h
    refine ⟨?_, ?_, ?_⟩
    · rw [decide_eq_true_eq] at h1
      exact List.ne_nil_of_length_pos h1
    · rw [decide_eq_true_eq] at h2
      simpa [effMatchCount] using h2
    · rwa [decide_eq_true_eq] at h3
  · intro ⟨h1, h2, h3⟩
    rw [admitted, Bool.and_eq_true, enoughCoverage, Bool.and_eq_true, enoughAnchors]
    refine ⟨⟨?_, ?_⟩, ?_⟩
    · rw [decide_eq_true_eq]
      exact List.length_pos_of_ne_nil h1
    · rw [decide_eq_true_eq]
      simpa [effMatchCount] using h2
    · rwa [decide_eq_true_eq]

/-- Witness for the amended claim C1 at the concrete ten-property input. -/
theorem claim_C1_amended_witness :
    admitted instOneHit namesTen ["p1"] [] (3/20) 1 = true ↔
      (namesTen ≠ [] ∧
       pyInt ((namesTen.length : ℚ) * (3/20)) ≤
         ((if negHit instOneHit [] then 0 else (matchesOf instOneHit namesTen).length : ℕ) : ℤ) ∧
       1 ≤ (anchorHitsOf instOneHit namesTen ["p1"]).length) :=
  claim_C1_amended instOneHit namesTen ["p1"] [] (3/20) 1

/-- Record whose fields contain both the anchor `jazz` and the negated
property `bad`. -/
def instNegated : Inst :=
  ⟨[("ID", "t2"), ("title", "jazz night"), ("lyrics", "jazz bad stuff")]⟩

/-- Claim C2, counterexample: with a single active property (`jazz`, an
anchor), `min_match_rate = 0.15` and `min_anchors = 1`, a record that
contains the negated property `bad` is nonetheless admitted — the negation
check clears the match list but not the anchor-hit set, and the floor
coverage threshold `int(1 * 0.15) = 0` is met by zero matches — and its
final score is the unzeroed title boost `0.1`, not `0`. -/
theorem claim_C2_counterexample :
    negHit instNegated ["bad"] = true ∧
    admitted instNegated ["jazz"] ["jazz"] ["bad"] (3/20) 1 = true ∧
    alookup (finalScores (fun _ => none) ["jazz"] ["jazz"] ["bad"] (3/20) 1 [instNegated])
      ("t2") = some (1/10) := by
  have hneg : negHit instNegated ["bad"] = true := by decide
  have hm : matchesOf instNegated ["jazz"] = ["jazz"] := by decide
  have ha : anchorHitsOf instNegated ["jazz"] ["jazz"] = ["jazz"] := by decide
  have hadm : admitted instNegated ["jazz"] ["jazz"] ["bad"] (3/20) 1 = true := by
    have hfloor : pyInt ((3 : ℚ)/20) = 0 := by norm_num [pyInt]
    simp [admitted, enoughCoverage, enoughAnchors, effMatchCount, hneg, ha, hfloor]
  refine ⟨hneg, hadm, ?_⟩
  have hid : idOf instNegated = some ("t2") := by decide
  have hboost : titleBoost instNegated ["jazz"] = 1/10 := by
    rw [titleBoost, if_pos]
    decide
  have hscore : recordScore (fun _ => none) ["jazz"] instNegated ("t2") = 1/10 := by
    rw [recordScore, hboost, protoSum]
    norm_num
  have hpass : scorePass (fun _ => none) ["jazz"] [instNegated] =
      [(("t2" : String), (1/10 : ℚ))] := by
    rw [scorePass, List.foldl_cons, List.foldl_nil, scoreStep, hid]
    simp [alookup, hscore]
  rw [finalScores, hpass, zeroPass, List.foldl_cons, List.foldl_nil]
  simp [zeroStep, hid, hadm, alookup, List.find?]

/-- Claim C2, amended: a negated property disqualifies a record (admission
fails and its accumulated score is overwritten with zero) whenever the floor
coverage threshold `int(len(active) * min_match_rate)` is at least one; the
negation check clears the match list but not the anchor-hit set, so when the
floor threshold is zero a negated record can still be admitted with its
unzeroed score. -/
theorem claim_C2_amended (protos : ProtoStore) (names anchors negs : List String)
    (rate : ℚ) (minAnchors : ℕ) (data : List Inst) (a : String)
    (hthr : 1 ≤ pyInt ((names.length : ℚ) * rate))
    (hex : ∃ i ∈ data, idOf i = some a)
    (hneg : ∀ i ∈ data, idOf i = some a → negHit i negs = true) :
    (∀ i ∈ data, idOf i = some a →
      admitted i names anchors negs rate minAnchors = false) ∧
    alookup (finalScores protos names anchors negs rate minAnchors data) a = some 0 := by
  have hadm : ∀ i ∈ data, idOf i = some a →
      admitted i names anchors negs rate minAnchors = false := by
    intro i hi hid
    exact negHit_admitted_false i names anchors negs rate minAnchors (hneg i hi hid) hthr
  refine ⟨hadm, ?_⟩
  obtain ⟨i0, hi0, hid0⟩ := hex
  have hsome : (alookup (scorePass protos names data) a).isSome = true := by
    rw [scorePass_lookup]
    have : (data.find? (fun i => idOf i == some a)).isSome = true := by
      rw [List.find?_isSome]
      exact ⟨i0, hi0, by simp [hid0]⟩
    simpa using this
  exact zeroPass_zeroes names anchors negs rate minAnchors data _ a hsome
    ⟨i0, hi0, hid0, hadm i0 hi0 hid0⟩

/-- Concrete active-property set of size seven used for the C2 witness
(`int(7 * 0.15) = 1`). -/
def namesSeven : List String := ["jazz", "q2", "q3", "q4", "q5", "q6", "q7"]

/-- Record containing the anchor `jazz` and the negated property `bad`. -/
def instNegSeven : Inst := ⟨[("ID", "t3"), ("lyrics", "jazz bad")]⟩

/-- Witness for the amended claim C2 at a concrete input. -/
theorem claim_C2_amended_witness :
    admitted instNegSeven namesSeven ["jazz"] ["bad"] (3/20) 1 = false ∧
    alookup (finalScores (fun _ => none) namesSeven ["jazz"] ["bad"] (3/20) 1 [instNegSeven])
      ("t3") = some 0 := by
  have h := claim_C2_amended (fun _ => none) namesSeven ["jazz"] ["bad"] (3/20) 1
    [instNegSeven] ("t3")
    (by have : namesSeven.length = 7 := by decide
        rw [this]; norm_num [pyInt])
    (⟨instNegSeven, by simp, by decide⟩)
    (by intro i hi hid
        have : i = instNegSeven := by simpa using hi
        subst this; decide)
  exact ⟨h.1 instNegSeven (by simp) (by decide), h.2⟩

/-- Claim C10: in the score-accumulation pass, each sanitized identifier is
scored at most once — its accumulated score is the title boost plus the
prototype-weight sum of the *first* catalog record bearing it, and later
records with the same sanitized identifier contribute nothing. -/
theorem claim_C10 (protos : ProtoStore) (names : List String) (data : List Inst)
    (a : String) :
    alookup (scorePass protos names data) a =
      ((data.find? (fun i => idOf i == some a)).map
        (fun i => recordScore protos names i a)) :=
  scorePass_lookup protos names data a

end Recommender

/-! ## The Prototype Builder (`prototyper.py`) -/

namespace Prototyper

/-- Constant `MIN_SCORE` of `prototyper.py`. -/
def MIN_SCORE : ℚ := 6/10

/-- Constant `MAX_SCORE` of `prototyper.py`. -/
def MAX_SCORE : ℚ := 9/10

/-- The external TreeTagger capability, as consumed by `prototyper.py`:
part-of-speech predicates and the lemmatizer.  Modelled as an oracle since
the tagger is outside the repository; the code composes it into `isNumber`,
`isAdverb`, `isVerb` and `getLemma` (with lower-cased fallbacks on failure,
which are particular choices of this oracle). -/
structure PosOracle where
  isNumber : String → Bool
  isAdverb : String → Bool
  isVerb : String → Bool
  getLemma : String → String

/-- State of the token loop of `insertArtworkInDict`: the item's running
lemma counter (`dict_prototypes[artwork]`) and the single-slot pending-verb
buffer (`verbo`). -/
structure PState where
  counts : List (String × ℕ)
  verbo : Option String
deriving DecidableEq

/-- Increment of a counter entry:
`d[word_lemma] = d.get(word_lemma, 0) + 1`. -/
def bump (counts : List (String × ℕ)) (k : String) : List (String × ℕ) :=
  if (alookup counts k).isSome then
    counts.map (fun p => if p.1 == k then (p.1, p.2 + 1) else p)
  else counts ++ [(k, 1)]

/-- The survival filter of line 352 of `prototyper.py`:
`len(word) > 1 and word not in remove_words and not isNumber(word) and
not isAdverb(word)` (applied to the lowered and stripped token). -/
def surviveFilter (pos : PosOracle) (remove : List String) (w2 : String) : Bool :=
  decide (1 < w2.length) && !(remove.contains w2) &&
    !(pos.isNumber w2) && !(pos.isAdverb w2)

/-- A raw token survives iff it is non-empty after `lower().strip()` and
passes the survival filter. -/
def survives (pos : PosOracle) (remove : List String) (w : String) : Bool :=
  (pyTrim (pyLower w) != "") && surviveFilter pos remove (pyTrim (pyLower w))

/-- One iteration of the token loop of `insertArtworkInDict`: empty tokens
are skipped (`continue`); surviving verbs overwrite the pending-verb buffer
with their lemma; surviving content words are counted and, when the buffer
is full, additionally credit the buffered verb lemma once and clear the
buffer; filtered tokens change nothing (the buffer persists across them). -/
def processToken (pos : PosOracle) (remove : List String) (st : PState) (w : String) :
    PState :=
  let w2 := pyTrim (pyLower w)
  if w2 = "" then st
  else if surviveFilter pos remove w2 = true then
    if pos.isVerb w2 = true then
      { counts := st.counts, verbo := some (pos.getLemma w2) }
    else
      let c1 := bump st.counts (pos.getLemma w2)
      match st.verbo with
      | some v => { counts := bump c1 v, verbo := none }
      | none => { counts := c1, verbo := none }
  else st

/-- The whole token loop over one item's token stream (the pending-verb
buffer starts empty, `verbo = None`). -/
def itemState (pos : PosOracle) (remove : List String) (st : PState)
    (tokens : List String) : PState :=
  tokens.foldl (processToken pos remove) st

/-- One catalog item as consumed by `insertArtworkInDict`: the artwork
identifier string and the token stream produced by `word_tokenize` on the
concatenated descriptive fields (tokenization is external, so the token
stream is the input). -/
structure Item where
  artId : String
  tokens : List String

/-- Function `safe_filename` of `prototyper.py`: drop the characters not
allowed in Windows filenames. -/
def safe_filename (s : String) : String :=
  String.mk (s.toList.filter (fun c => ¬ c ∈ badChars))

/-- Effect of `insertArtworkInDict` for one item on the global
`dict_prototypes`: the item's counter starts from the artwork's existing
entry (if any); an entry is created only when some content word is counted
(the code creates `dict_prototypes[artwork]` at the first increment). -/
def runStep (pos : PosOracle) (remove : List String)
    (dict : List (String × List (String × ℕ))) (it : Item) :
    List (String × List (String × ℕ)) :=
  let a := safe_filename it.artId
  let prev := alookup dict a
  let st := itemState pos remove ⟨prev.getD [], none⟩ it.tokens
  match prev with
  | some _ => dict.map (fun p => if p.1 == a then (p.1, st.counts) else p)
  | none => if st.counts = [] then dict else dict ++ [(a, st.counts)]

/-- The builder's pass over all items (`dict_prototypes` after the main
loop; per-item exceptions only skip items, which the claims do not rely on). -/
def runAll (pos : PosOracle) (remove : List String) (items : List Item) :
    List (String × List (String × ℕ)) :=
  items.foldl (runStep pos remove) []

/-- Value `totWords = sum(counts.values())` of the writing loop. -/
def totWords (counts : List (String × ℕ)) : ℕ :=
  (counts.map (fun p => p.2)).sum

/-- The `minFreq` computed by the writing loop: starts at `1.0` and is
lowered to every frequency below it. -/
def minFreqOf (counts : List (String × ℕ)) : ℚ :=
  counts.foldl (fun m p => min m ((p.2 : ℚ) / (totWords counts : ℚ))) 1

/-- The `maxFreq` computed by the writing loop: starts at `0.0` and is
raised to every frequency above it. -/
def maxFreqOf (counts : List (String × ℕ)) : ℚ :=
  counts.foldl (fun m p => max m ((p.2 : ℚ) / (totWords counts : ℚ))) 0

/-- Score of one raw occurrence count, before rounding: `MAX_SCORE` in the
degenerate equal-range branch, otherwise the min-max rescaling
`MIN_SCORE + rangeScore * (freq - minFreq) / rangeFreq`. -/
def scoreOf (counts : List (String × ℕ)) (cnt : ℕ) : ℚ :=
  if maxFreqOf counts - minFreqOf counts = 0 then MAX_SCORE
  else MIN_SCORE + (MAX_SCORE - MIN_SCORE) *
    ((cnt : ℚ) / (totWords counts : ℚ) - minFreqOf counts) /
    (maxFreqOf counts - minFreqOf counts)

/-- Score written to the artifact for a lemma: `round(score, 3)` of the
score of its count, `none` when the lemma is not in the counter. -/
def protoValue (counts : List (String × ℕ)) (w : String) : Option ℚ :=
  (counts.find? (fun p => p.1 == w)).map (fun p => round3 (scoreOf counts p.2))

end Prototyper

/-! ### Counter and fold lemmas for the builder -/

lemma alookup_map_incr (l : List (String × ℕ)) (a b : String) :
    alookup (l.map (fun p => if p.1 == b then (p.1, p.2 + 1) else p)) a =
      (alookup l a).map (fun v => if a = b then v + 1 else v) := by
  induction l with
  | nil => simp [alookup]
  | cons p t ih =>
    cases hpa : (p.1 == a)
    · have hka : ((if p.1 == b then (p.1, p.2 + 1) else p).1 == a) = false := by
        cases hpb : (p.1 == b) <;> simp [hpb, hpa]
      simp only [List.map_cons, alookup, List.find?] at *
      rw [hka, hpa] at *
      simpa [alookup] using ih
    · have hp1 : p.1 = a := by simpa using hpa
      cases hpb : (p.1 == b)
      · have hab : ¬ a = b := by
          intro h; apply absurd hpb; simp [hp1, h]
        simp [alookup, List.find?, hpb, hpa, hab]
      · have hab : a = b := by
          have := (beq_iff_eq).mp hpb; rw [← hp1, this]
        simp [alookup, List.find?, hpb, hpa, hab]

lemma alookup_bump_self (c : List (String × ℕ)) (k : String) :
    alookup (Prototyper.bump c k) k = some ((alookup c k).getD 0 + 1) := by
  rw [Prototyper.bump]
  cases hk : alookup c k with
  | none =>
    rw [if_neg (by simp [hk]), alookup_append, hk, alookup_single]
    simp
  | some v =>
    rw [if_pos (by simp [hk]), alookup_map_incr, hk]
    simp

lemma alookup_bump_other (c : List (String × ℕ)) (k k2 : String) (h : k2 ≠ k) :
    alookup (Prototyper.bump c k) k2 = alookup c k2 := by
  rw [Prototyper.bump]
  cases hk : alookup c k with
  | none =>
    rw [if_neg (by simp [hk]), alookup_append, alookup_single]
    have hf : (k == k2) = false := by
      simp only [beq_eq_false_iff_ne, ne_eq]
      exact fun he => h he.symm
    simp [hf]
  | some v =>
    rw [if_pos (by simp [hk]), alookup_map_incr]
    cases hg : alookup c k2 with
    | none => simp
    | some u => simp [h]

lemma foldl_min_le_init {α : Type} (f : α → ℚ) (l : List α) (a : ℚ) :
    l.foldl (fun m p => min m (f p)) a ≤ a := by
  induction l generalizing a with
  | nil => simp
  | cons x t ih => exact le_trans (ih (min a (f x))) (min_le_left _ _)

lemma foldl_min_le {α : Type} (f : α → ℚ) (l : List α) (a : ℚ) :
    ∀ x ∈ l, l.foldl (fun m p => min m (f p)) a ≤ f x := by
  induction l generalizing a with
  | nil => intro x hx; simp at hx
  | cons y t ih =>
    intro x hx
    rcases List.mem_cons.mp hx with h | h
    · subst h
      exact le_trans (foldl_min_le_init f t (min a (f x))) (min_le_right _ _)
    · exact ih (min a (f y)) x h

lemma foldl_min_attained {α : Type} (f : α → ℚ) (l : List α) (a : ℚ) :
    l.foldl (fun m p => min m (f p)) a = a ∨
      ∃ x ∈ l, l.foldl (fun m p => min m (f p)) a = f x := by
  induction l generalizing a with
  | nil => left; rfl
  | cons y t ih =>
    rw [List.foldl_cons]
    rcases ih (min a (f y)) with h | ⟨x, hx, hfx⟩
    · rcases min_choice a (f y) with hm | hm
      · left; rw [h, hm]
      · right; exact ⟨y, by simp, by rw [h, hm]⟩
    · right; exact ⟨x, List.mem_cons_of_mem _ hx, hfx⟩

lemma foldl_min_const {α : Type} (f : α → ℚ) (v : ℚ) :
    ∀ (l : List α) (a : ℚ), l ≠ [] → (∀ x ∈ l, f x = v) →
      l.foldl (fun m p => min m (f p)) a = min a v := by
  intro l
  induction l with
  | nil => intro a h _; exact absurd rfl h
  | cons y t ih =>
    intro a _ h
    rw [List.foldl_cons, h y (by simp)]
    by_cases ht : t = []
    · subst ht; rfl
    · rw [ih (min a v) ht (fun x hx => h x (List.mem_cons_of_mem _ hx)), min_assoc, min_self]

lemma foldl_max_ge_init {α : Type} (f : α → ℚ) (l : List α) (a : ℚ) :
    a ≤ l.foldl (fun m p => max m (f p)) a := by
  induction l generalizing a with
  | nil => simp
  | cons x t ih => exact le_trans (le_max_left _ _) (ih (max a (f x)))

lemma foldl_max_ge {α : Type} (f : α → ℚ) (l : List α) (a : ℚ) :
    ∀ x ∈ l, f x ≤ l.foldl (fun m p => max m (f p)) a := by
  induction l generalizing a with
  | nil => intro x hx; simp at hx
  | cons y t ih =>
    intro x hx
    rcases List.mem_cons.mp hx with h | h
    · subst h
      exact le_trans (le_max_right _ _) (foldl_max_ge_init f t (max a (f x)))
    · exact ih (max a (f y)) x h

lemma foldl_max_attained {α : Type} (f : α → ℚ) (l : List α) (a : ℚ) :
    l.foldl (fun m p => max m (f p)) a = a ∨
      ∃ x ∈ l, l.foldl (fun m p => max m (f p)) a = f x := by
  induction l generalizing a with
  | nil => left; rfl
  | cons y t ih =>
    rw [List.foldl_cons]
    rcases ih (max a (f y)) with h | ⟨x, hx, hfx⟩
    · rcases max_choice a (f y) with hm | hm
      · left; rw [h, hm]
      · right; exact ⟨y, by simp, by rw [h, hm]⟩
    · right; exact ⟨x, List.mem_cons_of_mem _ hx, hfx⟩

lemma foldl_max_const {α : Type} (f : α → ℚ) (v : ℚ) :
    ∀ (l : List α) (a : ℚ), l ≠ [] → (∀ x ∈ l, f x = v) →
      l.foldl (fun m p => max m (f p)) a = max a v := by
  intro l
  induction l with
  | nil => intro a h _; exact absurd rfl h
  | cons y t ih =>
    intro a _ h
    rw [List.foldl_cons, h y (by simp)]
    by_cases ht : t = []
    · subst ht; rfl
    · rw [ih (max a v) ht (fun x hx => h x (List.mem_cons_of_mem _ hx)), max_assoc, max_self]

namespace Prototyper

/-- Claim C6: one step of the token loop on a surviving token.  A verb
overwrites the pending-verb buffer with its lemma (dropping any previous
pending verb) and touches no count; a non-verb increments its own lemma and,
when the buffer is full, additionally increments the buffered verb lemma and
clears the buffer.  A `bump` adds exactly one to its key and leaves every
other key unchanged. -/
theorem claim_C6 (pos : PosOracle) (remove : List String) (st : PState) (w : String)
    (hs : survives pos remove w = true) :
    (pos.isVerb (pyTrim (pyLower w)) = true →
      processToken pos remove st w =
        { counts := st.counts, verbo := some (pos.getLemma (pyTrim (pyLower w))) }) ∧
    (pos.isVerb (pyTrim (pyLower w)) = false → st.verbo = none →
      processToken pos remove st w =
        { counts := bump st.counts (pos.getLemma (pyTrim (pyLower w))), verbo := none }) ∧
    (∀ v, pos.isVerb (pyTrim (pyLower w)) = false → st.verbo = some v →
      processToken pos remove st w =
        { counts := bump (bump st.counts (pos.getLemma (pyTrim (pyLower w)))) v,
          verbo := none }) ∧
    (∀ c k, alookup (bump c k) k = some ((alookup c k).getD 0 + 1)) ∧
    (∀ c k k2, k2 ≠ k → alookup (bump c k) k2 = alookup c k2) := by
  rw [survives, Bool.and_eq_true] at hs
  obtain ⟨hne, hfl⟩ := hs
  have hne' : ¬ pyTrim (pyLower w) = "" := by simpa using hne
  refine ⟨?_, ?_, ?_, alookup_bump_self, fun c k k2 h => alookup_bump_other c k k2 h⟩
  · intro hv
    simp [processToken, hne', hfl, hv]
  · intro hv hbuf
    simp [processToken, hne', hfl, hv, hbuf]
  · intro v hv hbuf
    simp [processToken, hne', hfl, hv, hbuf]

/-- Oracle used in the concrete witnesses: `run` is the only verb, nothing
is a number or adverb, and lemmatization is the identity. -/
def samplePos : PosOracle :=
  ⟨fun _ => false, fun _ => false, fun s => s == "run", fun s => s⟩

/-- Witness for claim C6: processing the surviving non-verb token `Cat`
with pending verb `go` credits both `cat` and `go` once and clears the
buffer. -/
theorem claim_C6_witness :
    processToken samplePos [] ⟨[("dog", 1)], some ("go")⟩ ("Cat") =
      { counts := bump (bump [("dog", 1)] ("cat")) ("go"), verbo := none } := by
  have h := (claim_C6 samplePos [] ⟨[("dog", 1)], some ("go")⟩ ("Cat")
    (by decide)).2.2.1 ("go") (by decide) rfl
  have hl : samplePos.getLemma (pyTrim (pyLower ("Cat"))) = "cat" := by decide
  rw [hl] at h
  exact h

/-- Skipped tokens (empty after normalization, too short, stopwords, numbers,
adverbs) leave the loop state untouched, pending verb included. -/
lemma processToken_skip (pos : PosOracle) (remove : List String) (st : PState)
    (w : String) (h : survives pos remove w = false) :
    processToken pos remove st w = st := by
  by_cases h0 : pyTrim (pyLower w) = ""
  · simp [processToken, h0]
  · have hb : (pyTrim (pyLower w) != "") = true := by simpa using h0
    rw [survives, hb, Bool.true_and] at h
    simp [processToken, h0, h]

lemma itemState_skip (pos : PosOracle) (remove : List String) (st : PState)
    (tokens : List String)
    (h : ∀ w ∈ tokens, survives pos remove w = false) :
    itemState pos remove st tokens = st := by
  induction tokens generalizing st with
  | nil => rfl
  | cons w t ih =>
    rw [itemState, List.foldl_cons, processToken_skip pos remove st w (h w (by simp))]
    exact ih st (fun x hx => h x (List.mem_cons_of_mem _ hx))

lemma runAll_none_aux (pos : PosOracle) (remove : List String) (items : List Item)
    (a : String) (dict : List (String × List (String × ℕ)))
    (hd : alookup dict a = none)
    (h : ∀ it ∈ items, safe_filename it.artId = a →
      ∀ w ∈ it.tokens, survives pos remove w = false) :
    alookup (items.foldl (runStep pos remove) dict) a = none := by
  induction items generalizing dict with
  | nil => simpa using hd
  | cons it t ih =>
    rw [List.foldl_cons]
    refine ih (Prototyper.runStep pos remove dict it) ?_
      (fun it2 h2 => h it2 (List.mem_cons_of_mem _ h2))
    by_cases hid : safe_filename it.artId = a
    · have hall := h it (by simp) hid
      simp only [runStep, hid, hd, Option.getD]
      have hst := itemState_skip pos remove ⟨[], none⟩ it.tokens hall
      rw [hst]
      simpa using hd
    · cases hprev : alookup dict (safe_filename it.artId) with
      | some c =>
        simp only [runStep, hprev]
        rw [alookup_map_set, hd]
        rfl
      | none =>
        simp only [runStep, hprev, Option.getD]
        by_cases hc : (itemState pos remove ⟨[], none⟩ it.tokens).counts = []
        · rw [if_pos hc]
          exact hd
        · rw [if_neg hc, alookup_append, hd, alookup_single]
          have hba : (safe_filename it.artId == a) = false := by simpa using hid
          rw [hba]
          rfl

/-- Claim C8: an item none of whose tokens survives the filter produces no
prototype entry (hence no artifact file, and the totality of the model
witnesses that the run continues without error). -/
theorem claim_C8 (pos : PosOracle) (remove : List String) (items : List Item)
    (a : String)
    (h : ∀ it ∈ items, safe_filename it.artId = a →
      ∀ w ∈ it.tokens, survives pos remove w = false) :
    alookup (runAll pos remove items) a = none :=
  runAll_none_aux pos remove items a [] (by simp [alookup]) h

/-- Witness for claim C8: an item whose tokens are all filtered (one-letter
token, stopword, empty token) yields no entry. -/
theorem claim_C8_witness :
    alookup (runAll samplePos ["the"] [⟨"art:1", ["a", "the", ""]⟩]) ("art1") = none :=
  claim_C8 samplePos ["the"] [⟨"art:1", ["a", "the", ""]⟩] ("art1") (by decide)

/-- The loop minimum is a lower bound on every frequency. -/
lemma minFreqOf_le (counts : List (String × ℕ)) (p : String × ℕ) (hp : p ∈ counts) :
    minFreqOf counts ≤ (p.2 : ℚ) / (totWords counts : ℚ) := by
  unfold minFreqOf
  exact foldl_min_le _ counts 1 p hp

/-- The loop minimum is its initialization `1.0` or an attained frequency. -/
lemma minFreqOf_attained (counts : List (String × ℕ)) :
    minFreqOf counts = 1 ∨
      ∃ p ∈ counts, minFreqOf counts = (p.2 : ℚ) / (totWords counts : ℚ) := by
  unfold minFreqOf
  exact foldl_min_attained _ counts 1

/-- The loop minimum over equal frequencies. -/
lemma minFreqOf_const (counts : List (String × ℕ)) (v : ℚ) (hne : counts ≠ [])
    (h : ∀ p ∈ counts, (p.2 : ℚ) / (totWords counts : ℚ) = v) :
    minFreqOf counts = min 1 v := by
  unfold minFreqOf
  exact foldl_min_const _ v counts 1 hne h

/-- The loop maximum is an upper bound on every frequency. -/
lemma maxFreqOf_ge (counts : List (String × ℕ)) (p : String × ℕ) (hp : p ∈ counts) :
    (p.2 : ℚ) / (totWords counts : ℚ) ≤ maxFreqOf counts := by
  unfold maxFreqOf
  exact foldl_max_ge _ counts 0 p hp

/-- The loop maximum is its initialization `0.0` or an attained frequency. -/
lemma maxFreqOf_attained (counts : List (String × ℕ)) :
    maxFreqOf counts = 0 ∨
      ∃ p ∈ counts, maxFreqOf counts = (p.2 : ℚ) / (totWords counts : ℚ) := by
  unfold maxFreqOf
  exact foldl_max_attained _ counts 0

/-- The loop maximum over equal frequencies. -/
lemma maxFreqOf_const (counts : List (String × ℕ)) (v : ℚ) (hne : counts ≠ [])
    (h : ∀ p ∈ counts, (p.2 : ℚ) / (totWords counts : ℚ) = v) :
    maxFreqOf counts = max 0 v := by
  unfold maxFreqOf
  exact foldl_max_const _ v counts 0 hne h

/-- Example lemma counter of claim C3: counts `a ↦ 5`, `b ↦ 3`, `c ↦ 1`. -/
def exCounts : List (String × ℕ) := [("a", 5), ("b", 3), ("c", 1)]

/-- Claim C3: for an item with at least one counted lemma, the loop-computed
`minFreq`/`maxFreq` are the true minimum and maximum frequencies; when they
differ, every lemma is written `round3` of the min-max rescaled score; when
all counts are equal (single lemma included), every lemma is written exactly
`MAX_SCORE = 0.9`. -/
theorem claim_C3 (counts : List (String × ℕ)) (hne : counts ≠ [])
    (hc : ∀ p ∈ counts, 1 ≤ p.2) :
    (∀ p ∈ counts,
        minFreqOf counts ≤ (p.2 : ℚ) / (totWords counts : ℚ) ∧
        (p.2 : ℚ) / (totWords counts : ℚ) ≤ maxFreqOf counts) ∧
    (∃ p ∈ counts, (p.2 : ℚ) / (totWords counts : ℚ) = minFreqOf counts) ∧
    (∃ p ∈ counts, (p.2 : ℚ) / (totWords counts : ℚ) = maxFreqOf counts) ∧
    (maxFreqOf counts ≠ minFreqOf counts → ∀ w : String,
        protoValue counts w = (counts.find? (fun q => q.1 == w)).map
          (fun q => round3 (MIN_SCORE + (MAX_SCORE - MIN_SCORE) *
            ((q.2 : ℚ) / (totWords counts : ℚ) - minFreqOf counts) /
            (maxFreqOf counts - minFreqOf counts)))) ∧
    ((∀ p ∈ counts, ∀ q ∈ counts, p.2 = q.2) →
        ∀ p ∈ counts, protoValue counts p.1 = some MAX_SCORE) := by
  obtain ⟨p0, hp0⟩ := List.exists_mem_of_ne_nil counts hne
  have hmem : ∀ p ∈ counts, p.2 ≤ totWords counts := by
    intro p hp
    exact List.single_le_sum (fun x _ => Nat.zero_le x) _
      (List.mem_map_of_mem (fun q => q.2) hp)
  have htot : 0 < totWords counts :=
    lt_of_lt_of_le (hc p0 hp0) (hmem p0 hp0)
  have htotQ : (0 : ℚ) < (totWords counts : ℚ) := by exact_mod_cast htot
  have hle1 : ∀ p ∈ counts, (p.2 : ℚ) / (totWords counts : ℚ) ≤ 1 := by
    intro p hp
    rw [div_le_one htotQ]
    exact_mod_cast hmem p hp
  have hpos : ∀ p ∈ counts, 0 < (p.2 : ℚ) / (totWords counts : ℚ) := by
    intro p hp
    apply div_pos _ htotQ
    exact_mod_cast hc p hp
  refine ⟨?_, ?_, ?_, ?_, ?_⟩
  · intro p hp
    exact ⟨minFreqOf_le counts p hp, maxFreqOf_ge counts p hp⟩
  · rcases minFreqOf_attained counts with hmin | ⟨x, hx, hfx⟩
    · refine ⟨p0, hp0, ?_⟩
      have h1 : minFreqOf counts ≤ (p0.2 : ℚ) / (totWords counts : ℚ) :=
        minFreqOf_le counts p0 hp0
      rw [hmin] at h1
      rw [hmin]
      exact le_antisymm (hle1 p0 hp0) h1
    · exact ⟨x, hx, hfx.symm⟩
  · rcases maxFreqOf_attained counts with hmax | ⟨x, hx, hfx⟩
    · exfalso
      have h1 : (p0.2 : ℚ) / (totWords counts : ℚ) ≤ maxFreqOf counts :=
        maxFreqOf_ge counts p0 hp0
      rw [hmax] at h1
      exact absurd (lt_of_lt_of_le (hpos p0 hp0) h1) (lt_irrefl 0)
    · exact ⟨x, hx, hfx.symm⟩
  · intro hd w
    have hd' : maxFreqOf counts - minFreqOf counts ≠ 0 := sub_ne_zero.mpr hd
    cases hf : counts.find? (fun q => q.1 == w) with
    | none => simp [protoValue, hf]
    | some q => simp [protoValue, hf, scoreOf, hd']
  · intro hall p hp
    have hv : ∀ q ∈ counts, (q.2 : ℚ) / (totWords counts : ℚ) =
        (p.2 : ℚ) / (totWords counts : ℚ) := by
      intro q hq
      rw [hall q hq p hp]
    have hmn : minFreqOf counts = (p.2 : ℚ) / (totWords counts : ℚ) := by
      rw [minFreqOf_const counts _ hne hv]
      exact min_eq_right (hle1 p hp)
    have hmx : maxFreqOf counts = (p.2 : ℚ) / (totWords counts : ℚ) := by
      rw [maxFreqOf_const counts _ hne hv]
      exact max_eq_right (le_of_lt (hpos p hp))
    have hrange : maxFreqOf counts - minFreqOf counts = 0 := by
      rw [hmn, hmx, sub_self]
    have hfind : (counts.find? (fun q => q.1 == p.1)).isSome = true := by
      rw [List.find?_isSome]
      exact ⟨p, hp, by simp⟩
    obtain ⟨q, hq⟩ := Option.isSome_iff_exists.mp hfind
    have hround : round3 MAX_SCORE = MAX_SCORE := by
      norm_num [round3, MAX_SCORE, round_eq]
    simp [protoValue, hq, scoreOf, hrange, hround]

/-- Witness for claim C3: on counts `a:5, b:3, c:1` (total 9) the artifact
scores are `a = 0.9`, `b = 0.75`, `c = 0.6`, and the extreme frequencies
bracket `5/9`. -/
theorem claim_C3_witness :
    minFreqOf exCounts ≤ (5 : ℚ)/9 ∧ (5 : ℚ)/9 ≤ maxFreqOf exCounts ∧
    protoValue exCounts ("a") = some ((9 : ℚ)/10) ∧
    protoValue exCounts ("b") = some ((3 : ℚ)/4) ∧
    protoValue exCounts ("c") = some ((3 : ℚ)/5) := by
  have h := claim_C3 exCounts (by decide) (by decide)
  have htot : totWords exCounts = 9 := by decide
  have h1 := (h.1 (("a", 5)) (by decide))
  rw [htot] at h1
  have hmn : minFreqOf exCounts = 1/9 := by
    norm_num [minFreqOf, exCounts, totWords, min_def]
  have hmx : maxFreqOf exCounts = 5/9 := by
    norm_num [maxFreqOf, exCounts, totWords, max_def]
  have hfa : exCounts.find? (fun q => q.1 == ("a")) = some (("a", 5)) := by decide
  have hfb : exCounts.find? (fun q => q.1 == ("b")) = some (("b", 3)) := by decide
  have hfc : exCounts.find? (fun q => q.1 == ("c")) = some (("c", 1)) := by decide
  have hform := h.2.2.2.1 (by rw [hmn, hmx]; norm_num)
  refine ⟨?_, ?_, ?_, ?_, ?_⟩
  · exact_mod_cast h1.1
  · exact_mod_cast h1.2
  · rw [hform ("a"), hfa]
    rw [htot, hmn, hmx]
    norm_num [MIN_SCORE, MAX_SCORE, round3, round_eq]
  · rw [hform ("b"), hfb]
    rw [htot, hmn, hmx]
    norm_num [MIN_SCORE, MAX_SCORE, round3, round_eq]
  · rw [hform ("c"), hfc]
    rw [htot, hmn, hmx]
    norm_num [MIN_SCORE, MAX_SCORE, round3, round_eq]

end Prototyper

/-! ## The Category Profile Distiller (`BuildTypicalRigid.py`) -/

namespace Distiller

/-- Constant `MACRO_GENRES`. -/
def MACRO_GENRES : List String :=
  ["rap", "metal", "rock", "pop", "trap", "reggae", "rnb", "country"]

/-- Constant `SUB2MACRO`: the label-to-macro-genre lexicon, in source order. -/
def subgenreMap : List (String × String) :=
  [("hip_hop", "rap"), ("hiphop", "rap"), ("boom_bap", "rap"), ("boom-bap", "rap"),
   ("rap", "rap"), ("drill", "rap"),
   ("trap", "trap"),
   ("rnb", "rnb"), ("r&b", "rnb"), ("contemporary_rnb", "rnb"), ("alternative_rnb", "rnb"),
   ("reggae", "reggae"), ("dancehall", "reggae"),
   ("metal", "metal"), ("heavy_metal", "metal"), ("nu_metal", "metal"),
   ("rock", "rock"), ("alt_rock", "rock"), ("alternative_rock", "rock"), ("punk_rock", "rock"),
   ("pop", "pop"), ("synthpop", "pop"), ("dance_pop", "pop"), ("electropop", "pop"),
   ("country", "country"), ("classic_country", "country"), ("alt_country", "country")]

/-- Constant `COMMON_GLOBAL`: overly generic properties. -/
def COMMON_GLOBAL : List String := ["high_repetition", "catchy_chorus", "hook_repetition"]

/-- Constant `COMMON_PENALTY = 0.40` (a factor `< 1`). -/
def COMMON_PENALTY : ℚ := 2/5

/-- Constant `DISTINCTIVE_MAX_GENRES = 2`. -/
def DISTINCTIVE_MAX_GENRES : ℕ := 2

/-- Constant `DISTINCTIVE_BOOST = 1.20` (a factor `> 1`). -/
def DISTINCTIVE_BOOST : ℚ := 6/5

/-- Constant `ALPHA = 0.45`. -/
def ALPHA : ℚ := 9/20

/-- Constant `MIN_W = 0.60`. -/
def MIN_W : ℚ := 3/5

/-- Constant `MAX_W = 0.95`. -/
def MAX_W : ℚ := 19/20

/-- Constant `STOP_EN`: the English stoplist (apostrophes written `\x27`). -/
def STOP_EN : List String :=
  ["the", "all", "a", "an", "and", "or", "but", "for", "to", "of", "in", "on", "at",
   "by", "with", "from", "as",
   "is", "are", "was", "were", "be", "been", "am", "do", "does", "did", "doing",
   "that", "this", "these", "those", "there", "here", "then", "than", "so",
   "i", "you", "he", "she", "we", "they", "it", "me", "him", "her", "us", "them",
   "my", "your", "his", "our", "their",
   "what", "which", "who", "whom", "whose", "where", "when", "why", "how",
   "not", "no", "yes", "yeah", "yah", "yo", "uh", "oh", "nah", "hmm",
   "im", "i\x27m", "ive", "i\x27ve", "ill", "i\x27ll", "id", "i\x27d",
   "youre", "you\x27re", "youve", "you\x27ve", "youll", "you\x27ll", "youd", "you\x27d",
   "hes", "he\x27s", "shes", "she\x27s", "we\x27re", "weve", "we\x27ve", "well",
   "we\x27ll", "wed", "we\x27d",
   "theyre", "they\x27re", "theyve", "they\x27ve", "theyll", "they\x27ll", "theyd",
   "they\x27d",
   "its", "it\x27s", "dont", "don\x27t", "doesnt", "doesn\x27t", "didnt", "didn\x27t",
   "cant", "can\x27t", "couldnt", "couldn\x27t",
   "shouldnt", "shouldn\x27t", "wouldnt", "wouldn\x27t", "aint", "ain\x27t", "isnt",
   "isn\x27t", "wasnt", "wasn\x27t", "werent", "weren\x27t",
   "havent", "haven\x27t", "hasnt", "hasn\x27t", "hadnt", "hadn\x27t", "wont",
   "won\x27t", "gonna", "wanna", "gotta", "lemme", "kinda", "sorta", "tryna",
   "\x27cause", "cause",
   "ya", "ok", "okay", "alright", "like", "just", "really", "right", "way", "thing",
   "things", "stuff",
   "get", "got", "make", "makes", "made", "take", "takes", "took", "put", "puts",
   "keep", "keeps", "kept",
   "back", "out", "up", "down", "over", "under", "again", "still", "now", "ever",
   "never", "always", "sometimes",
   "one", "two", "three", "time", "times", "day", "night"]

/-- Constant `DOMAIN_WHITELIST`: domain terms never filtered. -/
def DOMAIN_WHITELIST : List String :=
  ["hook_repetition", "catchy_chorus", "high_repetition", "flow", "wordplay",
   "storytelling", "battle",
   "trap", "drill", "boom_bap", "hip_hop", "hiphop", "rnb", "reggae", "metal",
   "rock", "pop", "country",
   "skrrt", "flex", "ice", "bando", "lean", "molly", "perc", "xan", "opps", "gang",
   "plug", "rollie", "guap", "racks", "bands",
   "glizzy", "draco", "blick", "blicky", "wraith", "bentley", "lambo", "woah",
   "lit", "savage", "shawty", "woke", "sauce", "drip",
   "patek", "cartier", "vvs", "chain", "chains", "whip", "808", "808s",
   "distorted_guitar", "riff", "bassline", "piano_loop"]

/-- The right single quotation mark, normalized by `norm_token`. -/
def rsqChar : Char := Char.ofNat 8217

/-- The left single quotation mark, normalized by `norm_token`. -/
def lsqChar : Char := Char.ofNat 8216

/-- The character set stripped from token ends by `norm_token` (`"_- "`). -/
def stripSet : List Char := [usChar, Char.ofNat 45, Char.ofNat 32]

/-- Replace every occurrence of character `a` by `b`. -/
def replaceChar (a b : Char) (s : String) : String :=
  String.mk (s.toList.map (fun c => if c = a then b else c))

/-- Function `norm_token`: lower-case, normalize typographic apostrophes,
strip `_`, `-` and spaces from both ends. -/
def norm_token (t : String) : String :=
  pyStrip stripSet (replaceChar lsqChar apoChar (replaceChar rsqChar apoChar (pyLower t)))

/-- Function `is_stop_en`: a stopword unless domain-whitelisted. -/
def is_stop_en (t : String) : Bool :=
  STOP_EN.contains t && !(DOMAIN_WHITELIST.contains t)

/-- Character class of `TOKEN_RE` (`[a-zA-Z']`). -/
def alphaApos (c : Char) : Bool := c.isAlpha || c = apoChar

/-- Maximal runs of `TOKEN_RE` characters (the non-overlapping greedy matches
of the regex, before the length bound); `acc` holds the current run reversed. -/
def tokenRuns : List Char → List Char → List (List Char)
  | acc, [] => if acc.isEmpty then [] else [acc.reverse]
  | acc, c :: cs =>
    if alphaApos c then tokenRuns (c :: acc) cs
    else if acc.isEmpty then tokenRuns [] cs
    else acc.reverse :: tokenRuns [] cs

/-- Function `extract_words`: regex tokens of length at least 3, normalized,
kept when still at least 3 characters and not stopwords. -/
def extract_words (text : String) : List String :=
  if text = "" then []
  else
    (((tokenRuns [] text.toList).filter (fun r => decide (3 ≤ r.length))).map
      (fun r => norm_token (String.mk r))).filter
      (fun t => decide (3 ≤ t.length) && !(is_stop_en t))

/-- One catalog track as consumed by the Distiller (fields missing in the
JSON default to the empty string or the empty list, exactly as
`entry.get(k, "")` / `entry.get(k) or []` produce).  Field order:
title, artist, album, year, lyrics, tags, subgenres. -/
structure Track where
  title : String
  artist : String
  album : String
  year : String
  lyrics : String
  tags : List String
  subgenres : List String
deriving DecidableEq

/-- The lower-cased `title album artist` blob scanned for lexicon keys. -/
def blob (e : Track) : String :=
  pyLower (e.title ++ " " ++ e.album ++ " " ++ e.artist)

/-- Lookup in `SUB2MACRO` with the key itself as default
(`SUB2MACRO.get(s2, s2)`). -/
def sub2macroLookup (s : String) : String :=
  ((subgenreMap.find? (fun kv => kv.1 == s)).map (fun kv => kv.2)).getD s

/-- All macro-genre candidates collected by `choose_macrogenres` before the
`MACRO_GENRES` filter: mapped subgenres, mapped tags, and lexicon keys found
as substrings of the blob.  The Python code collects them into a `set`;
only membership is consumed downstream, and this model enumerates the set
in first-seen order. -/
def macroHits (e : Track) : List String :=
  (e.subgenres.map (fun s => sub2macroLookup (norm_token s))) ++
  (e.tags.map (fun tg => sub2macroLookup (norm_token tg))) ++
  ((subgenreMap.filter (fun kv => strContains (blob e) kv.1)).map (fun kv => kv.2))

/-- Function `choose_macrogenres`: the candidates that are macro-genres. -/
def choose_macrogenres (e : Track) : List String :=
  (dedupFS (macroHits e)).filter (fun g => MACRO_GENRES.contains g)

/-- Tracks assigned to genre `g` (`songs_by_genre[g]`), in catalog order. -/
def songsOf (data : List Track) (g : String) : List Track :=
  data.filter (fun e => (choose_macrogenres e).contains g)

/-- Number of documents of a genre (`n_docs_g[g]`). -/
def nDocs (data : List Track) (g : String) : ℕ := (songsOf data g).length

/-- Canonical enumeration of a track's normalized tag set
(`set(norm_token(t) for t in tags)`), in first-seen order.  Python's actual
iteration order depends on the process hash seed; functions below take the
enumeration as a parameter, and `tagSet` is its canonical instance. -/
def tagSet (e : Track) : List String := dedupFS (e.tags.map norm_token)

/-- Canonical enumeration of a track's extracted word set
(`set(extract_words(lyrics))`), in first-seen order. -/
def wordSet (e : Track) : List String := dedupFS (extract_words e.lyrics)

/-- Tag document frequency `tag_df_by_g[g][t]` (per-track deduplicated),
for the tag-set enumeration `te`. -/
def tagDF (te : Track → List String) (data : List Track) (g t : String) : ℕ :=
  ((songsOf data g).filter (fun e => (te e).contains t)).length

/-- Word document frequency `word_df_by_g[g][w]`. -/
def wordDF (we : Track → List String) (data : List Track) (g w : String) : ℕ :=
  ((songsOf data g).filter (fun e => (we e).contains w)).length

/-- Insertion order of the keys of `tag_df_by_g[g]`: first-seen order of the
tags across the genre's tracks, each track contributing its set in the
enumeration order `te`. -/
def tagKeys (te : Track → List String) (data : List Track) (g : String) : List String :=
  dedupFS ((songsOf data g).foldl (fun acc e => acc ++ te e) [])

/-- Insertion order of the keys of `word_df_by_g[g]`. -/
def wordKeys (we : Track → List String) (data : List Track) (g : String) : List String :=
  dedupFS ((songsOf data g).foldl (fun acc e => acc ++ we e) [])

/-- Parameters of the Distiller run (the `argparse` arguments). -/
structure Params where
  typical_thr_tags : ℚ
  rigid_thr_tags : ℚ
  typical_thr_words : ℚ
  rigid_thr_words : ℚ
  min_df_words : ℕ
  topk_typical : ℕ
  max_rigid : ℕ
deriving DecidableEq

/-- The `frac_tag` dict of the per-genre loop, in key-insertion order. -/
def fracTag (te : Track → List String) (data : List Track) (g : String) :
    List (String × ℚ) :=
  (tagKeys te data g).map (fun t => (t, (tagDF te data g t : ℚ) / (nDocs data g : ℚ)))

/-- The `frac_word` dict: words meeting the absolute `min_df_words` bound,
with their fractions. -/
def fracWord (we : Track → List String) (data : List Track) (par : Params) (g : String) :
    List (String × ℚ) :=
  ((wordKeys we data g).filter (fun w => decide (par.min_df_words ≤ wordDF we data g w))).map
    (fun w => (w, (wordDF we data g w : ℚ) / (nDocs data g : ℚ)))

/-- Cross-genre property count `global_genre_count[p]`: the number of
macro-genres in whose tag or word DF table the property appears. -/
def genreCount (te we : Track → List String) (data : List Track) (p : String) : ℕ :=
  (MACRO_GENRES.filter (fun g => (tagDF te data g p != 0) || (wordDF we data g p != 0))).length

/-- Function `idf_prop`: `log(1 + (1 + gcount))`, with the floating-point
natural logarithm abstracted as the oracle `logF` (its exact values are not
representable in any exact model of the code). -/
def idf_prop (logF : ℚ → ℚ) (te we : Track → List String) (data : List Track)
    (p : String) : ℚ :=
  logF (1 + (1 + (genreCount te we data p : ℚ)))

/-- The `typical_tags_raw` dict: tags at or above the typical threshold. -/
def typicalTagsRaw (te : Track → List String) (data : List Track) (par : Params)
    (g : String) : List (String × ℚ) :=
  (fracTag te data g).filter (fun tv => decide (par.typical_thr_tags ≤ tv.2))

/-- The `typical_words_raw` dict: words at or above the typical threshold and
not overly generic (unless domain-whitelisted). -/
def typicalWordsRaw (we : Track → List String) (data : List Track) (par : Params)
    (g : String) : List (String × ℚ) :=
  (fracWord we data par g).filter (fun wv =>
    decide (par.typical_thr_words ≤ wv.2) &&
      !(COMMON_GLOBAL.contains wv.1 && !(DOMAIN_WHITELIST.contains wv.1)))

/-- `Counter` accumulation `scores[k] += v`: add to an existing key or append
a fresh one. -/
def addScore (l : List (String × ℚ)) (k : String) (v : ℚ) : List (String × ℚ) :=
  if (alookup l k).isSome then l.map (fun p => if p.1 == k then (p.1, p.2 + v) else p)
  else l ++ [(k, v)]

/-- The scoring formula `ALPHA*v + (1-ALPHA)*(v / idf_prop(p))` shared by
tags and (with the extra `0.8`) words. -/
def scoreTerm (logF : ℚ → ℚ) (te we : Track → List String) (data : List Track)
    (p : String) (v : ℚ) : ℚ :=
  ALPHA * v + (1 - ALPHA) * (v / idf_prop logF te we data p)

/-- Contribution of one qualifying tag entry to the `scores` counter. -/
def tagContrib (logF : ℚ → ℚ) (te we : Track → List String) (data : List Track)
    (tv : String × ℚ) : ℚ :=
  scoreTerm logF te we data tv.1 tv.2

/-- Contribution of one qualifying word entry: the same formula with the
`0.8` discount. -/
def wordContrib (logF : ℚ → ℚ) (te we : Track → List String) (data : List Track)
    (wv : String × ℚ) : ℚ :=
  scoreTerm logF te we data wv.1 wv.2 * (8/10)

/-- The `scores` counter after both accumulation loops (tags first, then
words with the `0.8` discount). -/
def rawScores (logF : ℚ → ℚ) (te we : Track → List String) (data : List Track)
    (par : Params) (g : String) : List (String × ℚ) :=
  (typicalWordsRaw we data par g).foldl
    (fun acc wv => addScore acc wv.1 (wordContrib logF te we data wv))
    ((typicalTagsRaw te data par g).foldl
      (fun acc tv => addScore acc tv.1 (tagContrib logF te we data tv)) [])

/-- The penalty/boost pass over one score: `*= COMMON_PENALTY` for overly
generic properties, then `*= DISTINCTIVE_BOOST` for properties in at most
`DISTINCTIVE_MAX_GENRES` genres.  (Every key of `scores` occurs in some DF
table of the run, so `global_genre_count.get(p, 99)` is its actual count.) -/
def penBoost (te we : Track → List String) (data : List Track) (p : String) (s : ℚ) : ℚ :=
  let s1 := if COMMON_GLOBAL.contains p then s * COMMON_PENALTY else s
  if genreCount te we data p ≤ DISTINCTIVE_MAX_GENRES then s1 * DISTINCTIVE_BOOST else s1

/-- The adjusted `scores` counter after the penalty/boost loop. -/
def adjScores (logF : ℚ → ℚ) (te we : Track → List String) (data : List Track)
    (par : Params) (g : String) : List (String × ℚ) :=
  (rawScores logF te we data par g).map (fun pv => (pv.1, penBoost te we data pv.1 pv.2))

/-- Stable insertion of `x` before the first element `y` with `f x y`. -/
def insBy {α : Type} (f : α → α → Bool) (x : α) : List α → List α
  | [] => [x]
  | y :: ys => if f x y then x :: y :: ys else y :: insBy f x ys

/-- Stable sort placing `x` before `y` when `f x y` (elements are inserted
after all earlier elements not strictly after them, so ties keep their
original order, as Python's stable `sorted` does). -/
def sortBy {α : Type} (f : α → α → Bool) (l : List α) : List α :=
  l.foldl (fun acc x => insBy f x acc) []

/-- Strict comparison of `Counter.most_common`: strictly larger value first
(ties keep insertion order). -/
def descVal (x y : String × ℚ) : Bool := decide (y.2 < x.2)

/-- `dict(scores.most_common(topk_typical))`: stable sort by value
descending, truncated to `topk_typical`. -/
def topItems (logF : ℚ → ℚ) (te we : Track → List String) (data : List Track)
    (par : Params) (g : String) : List (String × ℚ) :=
  (sortBy descVal (adjScores logF te we data par g)).take par.topk_typical

/-- Python `min` over a non-empty value list (`0` for the empty list, which
the code never queries). -/
def valuesMin : List ℚ → ℚ
  | [] => 0
  | v :: vs => vs.foldl min v

/-- Python `max` over a non-empty value list. -/
def valuesMax : List ℚ → ℚ
  | [] => 0
  | v :: vs => vs.foldl max v

/-- Function `clamp`: clip into `[MIN_W, MAX_W]`. -/
def clamp (x : ℚ) : ℚ := max MIN_W (min MAX_W x)

/-- Final weight of one kept property: the uniform `0.80` when all kept
scores are equal, otherwise the min-max rescaling into `[MIN_W, MAX_W]`;
in both branches the code applies `clamp(round(w, 3))`. -/
def normWeight (mn mx v : ℚ) : ℚ :=
  clamp (round3 (if mx = mn then 4/5 else MIN_W + (v - mn) / (mx - mn) * (MAX_W - MIN_W)))

/-- The `top_items` dict after normalization (`if top_items:` guard). -/
def normTops (tops : List (String × ℚ)) : List (String × ℚ) :=
  match tops with
  | [] => []
  | _ :: _ =>
    tops.map (fun pv => (pv.1,
      normWeight (valuesMin (tops.map (fun q => q.2)))
        (valuesMax (tops.map (fun q => q.2))) pv.2))

/-- Sort order of the typical artifact lines: weight descending, then name
ascending (`key=lambda kv: (-kv[1], kv[0])`). -/
def typBefore (a b : String × ℚ) : Bool :=
  decide (b.2 < a.2) || (decide (a.2 = b.2) && decide (a.1 < b.1))

/-- The lines of the typical artifact for one genre, as (property, weight)
pairs in file order. -/
def typicalLines (logF : ℚ → ℚ) (te we : Track → List String) (data : List Track)
    (par : Params) (g : String) : List (String × ℚ) :=
  sortBy typBefore (normTops (topItems logF te we data par g))

/-- The rigid candidate list before truncation: tags at or above
`rigid_thr_tags`, then domain-whitelisted words at or above
`rigid_thr_words`, deduplicated preserving first-seen order
(`list(dict.fromkeys(rigid))`). -/
def rigidFull (te we : Track → List String) (data : List Track) (par : Params)
    (g : String) : List String :=
  dedupFS ((((fracTag te data g).filter (fun tv => decide (par.rigid_thr_tags ≤ tv.2))).map
      (fun tv => tv.1)) ++
    (((fracWord we data par g).filter (fun wv =>
        decide (par.rigid_thr_words ≤ wv.2) && DOMAIN_WHITELIST.contains wv.1)).map
      (fun wv => wv.1)))

/-- The rigid list truncated to `max_rigid`. -/
def rigidList (te we : Track → List String) (data : List Track) (par : Params)
    (g : String) : List String :=
  (rigidFull te we data par g).take par.max_rigid

/-- Newline, the rigid artifact's line terminator. -/
def nl : String := String.mk [Char.ofNat 10]

/-- Byte content of the rigid artifact file for one genre. -/
def rigidBytes (te we : Track → List String) (data : List Track) (par : Params)
    (g : String) : String :=
  String.join ((rigidList te we data par g).map (fun k => k ++ nl))

/-- Per-genre output of the Distiller: the typical lines and the rigid
lines, both empty for a genre with zero assigned tracks (the early
`continue` branch writing empty files). -/
def genreArtifacts (logF : ℚ → ℚ) (te we : Track → List String) (data : List Track)
    (par : Params) (g : String) : List (String × ℚ) × List String :=
  if nDocs data g = 0 then ([], [])
  else (typicalLines logF te we data par g, rigidList te we data par g)

/-! ### Deduplication, counter and sort lemmas for the Distiller -/

lemma mem_dedupAux (x : String) :
    ∀ (l seen : List String), x ∈ dedupAux seen l ↔ x ∈ l ∧ x ∉ seen := by
  intro l
  induction l with
  | nil => intro seen; simp [dedupAux]
  | cons y t ih =>
    intro seen
    by_cases hy : y ∈ seen
    · rw [dedupAux, if_pos hy, ih]
      constructor
      · rintro ⟨hx, hs⟩
        exact ⟨List.mem_cons_of_mem _ hx, hs⟩
      · rintro ⟨hx, hs⟩
        rcases List.mem_cons.mp hx with rfl | hx
        · exact absurd hy hs
        · exact ⟨hx, hs⟩
    · rw [dedupAux, if_neg hy]
      constructor
      · intro hx
        rcases List.mem_cons.mp hx with rfl | hx
        · exact ⟨List.mem_cons_self _ _, hy⟩
        · obtain ⟨h1, h2⟩ := (ih (y :: seen)).mp hx
          exact ⟨List.mem_cons_of_mem _ h1,
            fun hs => h2 (List.mem_cons_of_mem _ hs)⟩
      · rintro ⟨hx, hs⟩
        rcases List.mem_cons.mp hx with rfl | hx
        · exact List.mem_cons_self _ _
        · by_cases hxy : x = y
          · subst hxy; exact List.mem_cons_self _ _
          · exact List.mem_cons_of_mem _ ((ih (y :: seen)).mpr
              ⟨hx, fun hm => by
                rcases List.mem_cons.mp hm with h | h
                · exact hxy h
                · exact hs h⟩)

lemma mem_dedupFS (x : String) (l : List String) : x ∈ dedupFS l ↔ x ∈ l := by
  rw [dedupFS, mem_dedupAux]
  simp

lemma dedupAux_nodup : ∀ (l seen : List String), (dedupAux seen l).Nodup := by
  intro l
  induction l with
  | nil => intro seen; simp [dedupAux]
  | cons y t ih =>
    intro seen
    by_cases hy : y ∈ seen
    · rw [dedupAux, if_pos hy]
      exact ih seen
    · rw [dedupAux, if_neg hy]
      refine List.Nodup.cons ?_ (ih (y :: seen))
      intro hmem
      exact ((mem_dedupAux y t (y :: seen)).mp hmem).2 (List.mem_cons_self _ _)

lemma dedupFS_nodup (l : List String) : (dedupFS l).Nodup := dedupAux_nodup l []

lemma alookup_map_addv (l : List (String × ℚ)) (a b : String) (v : ℚ) :
    alookup (l.map (fun p => if p.1 == b then (p.1, p.2 + v) else p)) a =
      (alookup l a).map (fun u => if a = b then u + v else u) := by
  induction l with
  | nil => simp [alookup]
  | cons p t ih =>
    cases hpa : (p.1 == a)
    · have hka : ((if p.1 == b then (p.1, p.2 + v) else p).1 == a) = false := by
        cases hpb : (p.1 == b) <;> simp [hpb, hpa]
      simp only [List.map_cons, alookup, List.find?] at *
      rw [hka, hpa] at *
      simpa [alookup] using ih
    · have hp1 : p.1 = a := by simpa using hpa
      cases hpb : (p.1 == b)
      · have hab : ¬ a = b := by
          intro h; apply absurd hpb; simp [hp1, h]
        simp [alookup, List.find?, hpb, hpa, hab]
      · have hab : a = b := by
          have := (beq_iff_eq).mp hpb; rw [← hp1, this]
        simp [alookup, List.find?, hpb, hpa, hab]

lemma addScore_lookup_self (l : List (String × ℚ)) (k : String) (v : ℚ) :
    alookup (Distiller.addScore l k v) k = some ((alookup l k).getD 0 + v) := by
  rw [Distiller.addScore]
  cases hk : alookup l k with
  | none =>
    rw [if_neg (by simp [hk]), alookup_append, hk, alookup_single]
    simp
  | some u =>
    rw [if_pos (by simp [hk]), alookup_map_addv, hk]
    simp

lemma addScore_lookup_other (l : List (String × ℚ)) (k : String) (v : ℚ) (p : String)
    (h : p ≠ k) :
    alookup (Distiller.addScore l k v) p = alookup l p := by
  rw [Distiller.addScore]
  cases hk : alookup l k with
  | none =>
    rw [if_neg (by simp [hk]), alookup_append, alookup_single]
    have hf : (k == p) = false := by
      simp only [beq_eq_false_iff_ne, ne_eq]
      exact fun he => h he.symm
    simp [hf]
  | some u =>
    rw [if_pos (by simp [hk]), alookup_map_addv]
    cases hg : alookup l p with
    | none => simp
    | some w => simp [h]

lemma addScore_fold_lookup (f : String × ℚ → ℚ) (src : List (String × ℚ))
    (acc : List (String × ℚ)) (p : String)
    (hnd : (src.map (fun x => x.1)).Nodup) :
    alookup (src.foldl (fun a x => Distiller.addScore a x.1 (f x)) acc) p =
      (match src.find? (fun x => x.1 == p) with
       | some kv => some ((alookup acc p).getD 0 + f kv)
       | none => alookup acc p) := by
  induction src generalizing acc with
  | nil => simp
  | cons kv t ih =>
    rw [List.map_cons, List.nodup_cons] at hnd
    obtain ⟨hk1, hnd'⟩ := hnd
    rw [List.foldl_cons, List.find?_cons]
    cases hkp : (kv.1 == p)
    · have hne : p ≠ kv.1 := by
        intro he
        apply absurd hkp
        simp [he]
      rw [ih _ hnd']
      cases hf : t.find? (fun x => x.1 == p) with
      | none => simp [addScore_lookup_other _ _ _ _ hne]
      | some kv2 => simp [addScore_lookup_other _ _ _ _ hne]
    · have hp1 : kv.1 = p := by simpa using hkp
      have hfn : t.find? (fun x => x.1 == p) = none := by
        rw [List.find?_eq_none]
        intro x hx
        have : x.1 ≠ kv.1 := by
          intro he
          exact hk1 (he ▸ List.mem_map_of_mem (fun q => q.1) hx)
        simp [hp1 ▸ this]
      rw [ih _ hnd', hfn]
      subst hp1
      simp [addScore_lookup_self]

lemma alookup_map_withKey (h : String → ℚ → ℚ) (l : List (String × ℚ)) (p : String) :
    alookup (l.map (fun pv => (pv.1, h pv.1 pv.2))) p = (alookup l p).map (h p) := by
  induction l with
  | nil => simp [alookup]
  | cons q t ih =>
    cases hqa : (q.1 == p)
    · simp only [List.map_cons, alookup, List.find?] at *
      rw [hqa] at *
      simpa [alookup] using ih
    · have hq1 : q.1 = p := by simpa using hqa
      simp [alookup, List.find?, hqa, hq1]

lemma mem_insBy {α : Type} (f : α → α → Bool) (x y : α) (l : List α) :
    y ∈ insBy f x l ↔ y = x ∨ y ∈ l := by
  induction l with
  | nil => simp [insBy]
  | cons z t ih =>
    rw [insBy]
    by_cases hf : f x z = true
    · simp [hf]
    · simp only [if_neg hf, List.mem_cons, ih]
      tauto

lemma mem_sortBy_fold {α : Type} (f : α → α → Bool) (l : List α) (x : α) :
    ∀ acc, (x ∈ l.foldl (fun a z => insBy f z a) acc ↔ x ∈ acc ∨ x ∈ l) := by
  induction l with
  | nil => intro acc; simp
  | cons y t ih =>
    intro acc
    rw [List.foldl_cons, ih, mem_insBy]
    constructor
    · rintro ((rfl | h) | h)
      · exact Or.inr (List.mem_cons_self _ _)
      · exact Or.inl h
      · exact Or.inr (List.mem_cons_of_mem _ h)
    · rintro (h | h)
      · exact Or.inl (Or.inr h)
      · rcases List.mem_cons.mp h with rfl | h
        · exact Or.inl (Or.inl rfl)
        · exact Or.inr h

lemma mem_sortBy {α : Type} (f : α → α → Bool) (l : List α) (x : α) :
    x ∈ sortBy f l ↔ x ∈ l := by
  rw [Distiller.sortBy, mem_sortBy_fold]
  simp

lemma qfoldl_min_le_init (xs : List ℚ) (a : ℚ) : xs.foldl min a ≤ a := by
  induction xs generalizing a with
  | nil => simp
  | cons x t ih => exact le_trans (ih (min a x)) (min_le_left _ _)

lemma qfoldl_min_le (xs : List ℚ) (a : ℚ) : ∀ x ∈ xs, xs.foldl min a ≤ x := by
  induction xs generalizing a with
  | nil => intro x hx; simp at hx
  | cons y t ih =>
    intro x hx
    rcases List.mem_cons.mp hx with rfl | hx
    · exact le_trans (qfoldl_min_le_init t (min a x)) (min_le_right _ _)
    · exact ih (min a y) x hx

lemma qfoldl_min_mem (xs : List ℚ) (a : ℚ) :
    xs.foldl min a = a ∨ xs.foldl min a ∈ xs := by
  induction xs generalizing a with
  | nil => left; rfl
  | cons y t ih =>
    rw [List.foldl_cons]
    rcases ih (min a y) with h | h
    · rcases min_choice a y with hm | hm
      · left; rw [h, hm]
      · right; rw [h, hm]; exact List.mem_cons_self _ _
    · right; exact List.mem_cons_of_mem _ h

lemma qfoldl_max_ge_init (xs : List ℚ) (a : ℚ) : a ≤ xs.foldl max a := by
  induction xs generalizing a with
  | nil => simp
  | cons x t ih => exact le_trans (le_max_left _ _) (ih (max a x))

lemma qfoldl_max_ge (xs : List ℚ) (a : ℚ) : ∀ x ∈ xs, x ≤ xs.foldl max a := by
  induction xs generalizing a with
  | nil => intro x hx; simp at hx
  | cons y t ih =>
    intro x hx
    rcases List.mem_cons.mp hx with rfl | hx
    · exact le_trans (le_max_right _ _) (qfoldl_max_ge_init t (max a x))
    · exact ih (max a y) x hx

lemma qfoldl_max_mem (xs : List ℚ) (a : ℚ) :
    xs.foldl max a = a ∨ xs.foldl max a ∈ xs := by
  induction xs generalizing a with
  | nil => left; rfl
  | cons y t ih =>
    rw [List.foldl_cons]
    rcases ih (max a y) with h | h
    · rcases max_choice a y with hm | hm
      · left; rw [h, hm]
      · right; rw [h, hm]; exact List.mem_cons_self _ _
    · right; exact List.mem_cons_of_mem _ h

lemma valuesMin_le (l : List ℚ) (x : ℚ) (hx : x ∈ l) : Distiller.valuesMin l ≤ x := by
  cases l with
  | nil => simp at hx
  | cons v vs =>
    rcases List.mem_cons.mp hx with rfl | hx
    · exact qfoldl_min_le_init vs x
    · exact qfoldl_min_le vs v x hx

lemma valuesMin_mem (l : List ℚ) (hne : l ≠ []) : Distiller.valuesMin l ∈ l := by
  cases l with
  | nil => exact absurd rfl hne
  | cons v vs =>
    rcases qfoldl_min_mem vs v with h | h
    · rw [Distiller.valuesMin, h]; exact List.mem_cons_self _ _
    · exact List.mem_cons_of_mem _ h

lemma valuesMax_ge (l : List ℚ) (x : ℚ) (hx : x ∈ l) : x ≤ Distiller.valuesMax l := by
  cases l with
  | nil => simp at hx
  | cons v vs =>
    rcases List.mem_cons.mp hx with rfl | hx
    · exact qfoldl_max_ge_init vs x
    · exact qfoldl_max_ge vs v x hx

lemma valuesMax_mem (l : List ℚ) (hne : l ≠ []) : Distiller.valuesMax l ∈ l := by
  cases l with
  | nil => exact absurd rfl hne
  | cons v vs =>
    rcases qfoldl_max_mem vs v with h | h
    · rw [Distiller.valuesMax, h]; exact List.mem_cons_self _ _
    · exact List.mem_cons_of_mem _ h

/-! ### Lookup characterization of the score pipeline -/

lemma typicalTagsRaw_keys_nodup (te : Track → List String) (data : List Track)
    (par : Params) (g : String) :
    ((typicalTagsRaw te data par g).map (fun x => x.1)).Nodup := by
  have hk : ((fracTag te data g).map (fun x => x.1)).Nodup := by
    rw [fracTag, List.map_map]
    have hcomp : ((fun x : String × ℚ => x.1) ∘
        fun t => (t, (tagDF te data g t : ℚ) / (nDocs data g : ℚ))) = id := by
      funext t; rfl
    rw [hcomp, List.map_id, tagKeys]
    exact dedupFS_nodup _
  exact hk.sublist (List.Sublist.map _ (List.filter_sublist _))

lemma typicalWordsRaw_keys_nodup (we : Track → List String) (data : List Track)
    (par : Params) (g : String) :
    ((typicalWordsRaw we data par g).map (fun x => x.1)).Nodup := by
  have hk : ((fracWord we data par g).map (fun x => x.1)).Nodup := by
    rw [fracWord, List.map_map]
    have hcomp : ((fun x : String × ℚ => x.1) ∘
        fun w => (w, (wordDF we data g w : ℚ) / (nDocs data g : ℚ))) = id := by
      funext w; rfl
    rw [hcomp, List.map_id]
    refine List.Nodup.filter _ ?_
    rw [wordKeys]
    exact dedupFS_nodup _
  exact hk.sublist (List.Sublist.map _ (List.filter_sublist _))

/-- Value of the adjusted score counter at a property, by the four
tag/word qualification cases. -/
lemma rawScores_lookup (logF : ℚ → ℚ) (te we : Track → List String) (data : List Track)
    (par : Params) (g p : String) :
    alookup (rawScores logF te we data par g) p =
      (match (typicalTagsRaw te data par g).find? (fun x => x.1 == p),
             (typicalWordsRaw we data par g).find? (fun x => x.1 == p) with
       | some tv, none => some (tagContrib logF te we data tv)
       | none, some wv => some (wordContrib logF te we data wv)
       | some tv, some wv =>
           some (tagContrib logF te we data tv + wordContrib logF te we data wv)
       | none, none => none) := by
  rw [rawScores,
    addScore_fold_lookup (wordContrib logF te we data) _ _ _
      (typicalWordsRaw_keys_nodup we data par g),
    addScore_fold_lookup (tagContrib logF te we data) _ _ _
      (typicalTagsRaw_keys_nodup te data par g)]
  cases hft : (typicalTagsRaw te data par g).find? (fun x => x.1 == p) with
  | none =>
    cases hfw : (typicalWordsRaw we data par g).find? (fun x => x.1 == p) with
    | none => simp [alookup]
    | some wv => simp [alookup]
  | some tv =>
    cases hfw : (typicalWordsRaw we data par g).find? (fun x => x.1 == p) with
    | none => simp [alookup]
    | some wv => simp [alookup, add_comm]

lemma adjScores_lookup (logF : ℚ → ℚ) (te we : Track → List String) (data : List Track)
    (par : Params) (g p : String) :
    alookup (adjScores logF te we data par g) p =
      (alookup (rawScores logF te we data par g) p).map (penBoost te we data p) := by
  rw [adjScores, alookup_map_withKey (penBoost te we data)]

/-- The penalty/boost loop as a product of two factors. -/
lemma penBoost_eq (te we : Track → List String) (data : List Track) (p : String) (s : ℚ) :
    penBoost te we data p s =
      (if COMMON_GLOBAL.contains p then s * COMMON_PENALTY else s) *
        (if genreCount te we data p ≤ DISTINCTIVE_MAX_GENRES then DISTINCTIVE_BOOST else 1) := by
  rw [penBoost]
  by_cases h : genreCount te we data p ≤ DISTINCTIVE_MAX_GENRES
  · simp [h]
  · simp [h]

/-- Claim C4 (amended): `idf(p) = log(2 + genre_count)` and the adjusted
typical score of a qualifying property equals the tag formula for
tag-only properties, the word formula (with the `0.8` discount) for
word-only properties, and — the amendment — the *sum* of both terms for a
property qualifying simultaneously as a tag and as a lyric word; the result
is multiplied by `COMMON_PENALTY < 1` for overly generic properties and by
`DISTINCTIVE_BOOST > 1` for properties in at most `DISTINCTIVE_MAX_GENRES`
genres. -/
theorem claim_C4_amended (logF : ℚ → ℚ) (te we : Track → List String)
    (data : List Track) (par : Params) (g p : String) :
    (idf_prop logF te we data p = logF (2 + (genreCount te we data p : ℚ))) ∧
    COMMON_PENALTY < 1 ∧ 1 < DISTINCTIVE_BOOST ∧
    (∀ s, penBoost te we data p s =
      (if COMMON_GLOBAL.contains p then s * COMMON_PENALTY else s) *
        (if genreCount te we data p ≤ DISTINCTIVE_MAX_GENRES then DISTINCTIVE_BOOST else 1)) ∧
    (∀ vt, (typicalTagsRaw te data par g).find? (fun x => x.1 == p) = some ((p, vt)) →
      (typicalWordsRaw we data par g).find? (fun x => x.1 == p) = none →
      alookup (adjScores logF te we data par g) p =
        some (penBoost te we data p
          (ALPHA * vt + (1 - ALPHA) * (vt / idf_prop logF te we data p)))) ∧
    (∀ vw, (typicalTagsRaw te data par g).find? (fun x => x.1 == p) = none →
      (typicalWordsRaw we data par g).find? (fun x => x.1 == p) = some ((p, vw)) →
      alookup (adjScores logF te we data par g) p =
        some (penBoost te we data p
          ((ALPHA * vw + (1 - ALPHA) * (vw / idf_prop logF te we data p)) * (8/10)))) ∧
    (∀ vt vw, (typicalTagsRaw te data par g).find? (fun x => x.1 == p) = some ((p, vt)) →
      (typicalWordsRaw we data par g).find? (fun x => x.1 == p) = some ((p, vw)) →
      alookup (adjScores logF te we data par g) p =
        some (penBoost te we data p
          ((ALPHA * vt + (1 - ALPHA) * (vt / idf_prop logF te we data p)) +
           (ALPHA * vw + (1 - ALPHA) * (vw / idf_prop logF te we data p)) * (8/10)))) := by
  refine ⟨?_, by norm_num [COMMON_PENALTY], by norm_num [DISTINCTIVE_BOOST],
    penBoost_eq te we data p, ?_, ?_, ?_⟩
  · rw [idf_prop]
    congr 1
    ring
  · intro vt hft hfw
    rw [adjScores_lookup, rawScores_lookup, hft, hfw]
    simp [tagContrib, scoreTerm]
  · intro vw hft hfw
    rw [adjScores_lookup, rawScores_lookup, hft, hfw]
    simp [wordContrib, scoreTerm]
  · intro vt vw hft hfw
    rw [adjScores_lookup, rawScores_lookup, hft, hfw]
    simp [tagContrib, wordContrib, scoreTerm]

/-! ### A concrete one-track catalog for the Distiller claims -/

/-- Track with tag `rock` and lyrics `rock`: the string `rock` qualifies
both as a tag and as a lyric word of the genre `rock`.
Fields: title, artist, album, year, lyrics, tags, subgenres. -/
def trackRock : Track := ⟨"", "", "", "", "rock", ["rock"], []⟩

/-- Track with tags `rock` and `pop` and empty lyrics. -/
def trackRockPop : Track := ⟨"", "", "", "", "", ["rock", "pop"], []⟩

/-- The strict default parameters of `BuildTypicalRigid.py`, except
`min_df_words = 1` so that a one-track catalog can exercise the word path
(the parameter is CLI-settable). -/
def parStd : Params :=
  ⟨85/100, 98/100, 85/100, 98/100, 1, 5, 3⟩

/-- Rational stand-in for `math.log` used at concrete inputs: the only value
the examples consume is `log 3 = 1.0986...`, truncated to four decimals. -/
def log0 : ℚ → ℚ := fun _ => 10986/10000

/-- The reversed tag-set enumeration, a permutation of the canonical one —
exactly what a different `PYTHONHASHSEED` can produce for the iteration
order of a two-element Python set. -/
def tagSetRev (e : Track) : List String := (tagSet e).reverse

lemma rock_fracTag : fracTag tagSet [trackRock] ("rock") = [(("rock"), 1)] := by
  have h1 : tagKeys tagSet [trackRock] ("rock") = ["rock"] := by decide
  have h2 : tagDF tagSet [trackRock] ("rock") ("rock") = 1 := by decide
  have h3 : nDocs [trackRock] ("rock") = 1 := by decide
  rw [fracTag, h1]
  simp [h2, h3]

lemma rock_fracWord : fracWord wordSet [trackRock] parStd ("rock") = [(("rock"), 1)] := by
  have h1 : wordKeys wordSet [trackRock] ("rock") = ["rock"] := by decide
  have h2 : wordDF wordSet [trackRock] ("rock") ("rock") = 1 := by decide
  have h3 : nDocs [trackRock] ("rock") = 1 := by decide
  rw [fracWord, h1]
  simp [h2, h3, parStd]

lemma rock_tagsRaw : typicalTagsRaw tagSet [trackRock] parStd ("rock") = [(("rock"), 1)] := by
  rw [typicalTagsRaw, rock_fracTag]
  norm_num [parStd, List.filter]

lemma rock_wordsRaw :
    typicalWordsRaw wordSet [trackRock] parStd ("rock") = [(("rock"), 1)] := by
  rw [typicalWordsRaw, rock_fracWord]
  norm_num [parStd, List.filter]
  decide

lemma rock_gc : genreCount tagSet wordSet [trackRock] ("rock") = 1 := by decide

/-- Value carried by `rock` in the raw score counter: the tag term plus the
discounted word term. -/
lemma rock_adjList :
    adjScores log0 tagSet wordSet [trackRock] parStd ("rock") =
      [(("rock"), penBoost tagSet wordSet [trackRock] ("rock")
        (tagContrib log0 tagSet wordSet [trackRock] (("rock"), 1) +
         wordContrib log0 tagSet wordSet [trackRock] (("rock"), 1)))] := by
  rw [adjScores, rawScores, rock_tagsRaw, rock_wordsRaw]
  simp [addScore, alookup, List.find?]

lemma rock_penBoost (s : ℚ) :
    penBoost tagSet wordSet [trackRock] ("rock") s = s * DISTINCTIVE_BOOST := by
  have hcg : COMMON_GLOBAL.contains ("rock") = false := by decide
  rw [penBoost, hcg]
  simp [rock_gc, DISTINCTIVE_MAX_GENRES]

lemma rock_scoreTerm :
    scoreTerm log0 tagSet wordSet [trackRock] ("rock") 1 = 104437/109860 := by
  rw [scoreTerm, idf_prop, rock_gc]
  norm_num [log0, ALPHA]

/-- Claim C4, counterexample: in a catalog where the property `rock`
qualifies simultaneously as a tag (fraction 1) and as a lyric word
(fraction 1) of the genre `rock`, the adjusted score is the boosted *sum*
`(tag term + 0.8 * word term) * DISTINCTIVE_BOOST`, not the boosted tag
formula that the claim prescribes for a qualifying tag. -/
theorem claim_C4_counterexample :
    ((typicalTagsRaw tagSet [trackRock] parStd ("rock")).find?
      (fun x => x.1 == ("rock")) = some ((("rock"), 1))) ∧
    ¬ (alookup (adjScores log0 tagSet wordSet [trackRock] parStd ("rock")) ("rock") =
      some (penBoost tagSet wordSet [trackRock] ("rock")
        (ALPHA * 1 + (1 - ALPHA) * (1 / idf_prop log0 tagSet wordSet [trackRock] ("rock"))))) := by
  constructor
  · rw [rock_tagsRaw]
    simp [List.find?]
  · rw [rock_adjList]
    intro h
    have h2 := Option.some.inj (by simpa [alookup, List.find?] using h)
    rw [rock_penBoost, rock_penBoost] at h2
    simp only [tagContrib, wordContrib, rock_scoreTerm] at h2
    rw [idf_prop, rock_gc] at h2
    norm_num [log0, ALPHA, DISTINCTIVE_BOOST] at h2

/-- Witness for the amended claim C4: at the concrete dual-qualified input,
the score is the boosted sum of the tag term and the discounted word term. -/
theorem claim_C4_amended_witness :
    alookup (adjScores log0 tagSet wordSet [trackRock] parStd ("rock")) ("rock") =
      some (penBoost tagSet wordSet [trackRock] ("rock")
        ((ALPHA * 1 + (1 - ALPHA) * (1 / idf_prop log0 tagSet wordSet [trackRock] ("rock"))) +
         (ALPHA * 1 + (1 - ALPHA) * (1 / idf_prop log0 tagSet wordSet [trackRock] ("rock"))) *
           (8/10))) := by
  have h := (claim_C4_amended log0 tagSet wordSet [trackRock] parStd ("rock")
    ("rock")).2.2.2.2.2.2
  exact h 1 1 (by rw [rock_tagsRaw]; simp [List.find?])
    (by rw [rock_wordsRaw]; simp [List.find?])

/-! ### Normalization of the kept typical set (claim C5) -/

lemma clamp_bounds (x : ℚ) : MIN_W ≤ clamp x ∧ clamp x ≤ MAX_W := by
  constructor
  · exact le_max_left _ _
  · exact max_le (by norm_num [MIN_W, MAX_W]) (min_le_left _ _)

lemma normWeight_bounds (mn mx v : ℚ) :
    MIN_W ≤ normWeight mn mx v ∧ normWeight mn mx v ≤ MAX_W :=
  clamp_bounds _

lemma round3_MIN_W : round3 MIN_W = MIN_W := by
  norm_num [round3, MIN_W, round_eq]

lemma round3_MAX_W : round3 MAX_W = MAX_W := by
  norm_num [round3, MAX_W, round_eq]

lemma normWeight_at_min (mn mx : ℚ) (h : mx ≠ mn) : normWeight mn mx mn = MIN_W := by
  rw [normWeight, if_neg h]
  rw [sub_self, zero_div, zero_mul, add_zero, round3_MIN_W]
  norm_num [clamp, MIN_W, MAX_W, max_def, min_def]

lemma normWeight_at_max (mn mx : ℚ) (h : mx ≠ mn) : normWeight mn mx mx = MAX_W := by
  rw [normWeight, if_neg h, div_self (sub_ne_zero.mpr h), one_mul]
  have harith : MIN_W + (MAX_W - MIN_W) = MAX_W := by ring
  rw [harith, round3_MAX_W]
  norm_num [clamp, MIN_W, MAX_W, max_def, min_def]

lemma normWeight_uniform (v v2 : ℚ) : normWeight v v v2 = 4/5 := by
  rw [normWeight, if_pos rfl]
  have : round3 (4/5) = 4/5 := by norm_num [round3, round_eq]
  rw [this]
  norm_num [clamp, MIN_W, MAX_W, max_def, min_def]

lemma valuesMin_const (l : List ℚ) (v : ℚ) (hne : l ≠ []) (h : ∀ x ∈ l, x = v) :
    valuesMin l = v :=
  h _ (valuesMin_mem l hne)

lemma valuesMax_const (l : List ℚ) (v : ℚ) (hne : l ≠ []) (h : ∀ x ∈ l, x = v) :
    valuesMax l = v :=
  h _ (valuesMax_mem l hne)

/-- Claim C5: at most `topk_typical` properties are kept; the min-max
rescaling maps the kept minimum to `MIN_W = 0.60` and the kept maximum to
`MAX_W = 0.95` (when the kept scores are not all equal); every weight of the
normalized set and of the written artifact lies in `[0.60, 0.95]`; and when
all kept scores are equal every property receives the uniform weight
`0.80`. -/
theorem claim_C5 (logF : ℚ → ℚ) (te we : Track → List String) (data : List Track)
    (par : Params) (g : String)
    (hne : topItems logF te we data par g ≠ []) :
    ((topItems logF te we data par g).length ≤ par.topk_typical) ∧
    ((normTops (topItems logF te we data par g)).length =
      (topItems logF te we data par g).length) ∧
    (∀ pv ∈ topItems logF te we data par g,
      valuesMin ((topItems logF te we data par g).map (fun q => q.2)) ≤ pv.2 ∧
      pv.2 ≤ valuesMax ((topItems logF te we data par g).map (fun q => q.2))) ∧
    (valuesMin ((topItems logF te we data par g).map (fun q => q.2)) ∈
      (topItems logF te we data par g).map (fun q => q.2)) ∧
    (valuesMax ((topItems logF te we data par g).map (fun q => q.2)) ∈
      (topItems logF te we data par g).map (fun q => q.2)) ∧
    (valuesMax ((topItems logF te we data par g).map (fun q => q.2)) ≠
        valuesMin ((topItems logF te we data par g).map (fun q => q.2)) →
      normWeight (valuesMin ((topItems logF te we data par g).map (fun q => q.2)))
          (valuesMax ((topItems logF te we data par g).map (fun q => q.2)))
          (valuesMin ((topItems logF te we data par g).map (fun q => q.2))) = MIN_W ∧
      normWeight (valuesMin ((topItems logF te we data par g).map (fun q => q.2)))
          (valuesMax ((topItems logF te we data par g).map (fun q => q.2)))
          (valuesMax ((topItems logF te we data par g).map (fun q => q.2))) = MAX_W) ∧
    (∀ pv ∈ normTops (topItems logF te we data par g), MIN_W ≤ pv.2 ∧ pv.2 ≤ MAX_W) ∧
    (∀ pv ∈ typicalLines logF te we data par g, MIN_W ≤ pv.2 ∧ pv.2 ≤ MAX_W) ∧
    ((∀ pv ∈ topItems logF te we data par g, ∀ qv ∈ topItems logF te we data par g,
        pv.2 = qv.2) →
      ∀ pv ∈ normTops (topItems logF te we data par g), pv.2 = 4/5) := by
  have hlen : (topItems logF te we data par g).length ≤ par.topk_typical := by
    rw [topItems]
    exact List.length_take_le _ _
  have hmapne : (topItems logF te we data par g).map (fun q => q.2) ≠ [] := by
    intro h
    exact hne (List.map_eq_nil_iff.mp h)
  have hnormTops : normTops (topItems logF te we data par g) =
      (topItems logF te we data par g).map (fun pv => (pv.1,
        normWeight (valuesMin ((topItems logF te we data par g).map (fun q => q.2)))
          (valuesMax ((topItems logF te we data par g).map (fun q => q.2))) pv.2)) := by
    cases htop : topItems logF te we data par g with
    | nil => exact absurd htop hne
    | cons a t => rw [normTops]
  have hmemNorm : ∀ pv ∈ normTops (topItems logF te we data par g),
      MIN_W ≤ pv.2 ∧ pv.2 ≤ MAX_W := by
    intro pv hpv
    rw [hnormTops] at hpv
    obtain ⟨qv, _, rfl⟩ := List.mem_map.mp hpv
    exact normWeight_bounds _ _ _
  refine ⟨hlen, ?_, ?_, ?_, ?_, ?_, hmemNorm, ?_, ?_⟩
  · rw [hnormTops, List.length_map]
  · intro pv hpv
    exact ⟨valuesMin_le _ _ (List.mem_map_of_mem _ hpv),
      valuesMax_ge _ _ (List.mem_map_of_mem _ hpv)⟩
  · exact valuesMin_mem _ hmapne
  · exact valuesMax_mem _ hmapne
  · intro hd
    exact ⟨normWeight_at_min _ _ hd, normWeight_at_max _ _ hd⟩
  · intro pv hpv
    rw [typicalLines] at hpv
    exact hmemNorm pv ((mem_sortBy _ _ _).mp hpv)
  · intro hall pv hpv
    obtain ⟨a, ha⟩ := List.exists_mem_of_ne_nil _ hne
    have hvals : ∀ x ∈ (topItems logF te we data par g).map (fun q => q.2), x = a.2 := by
      intro x hx
      obtain ⟨qv, hqv, rfl⟩ := List.mem_map.mp hx
      exact hall qv hqv a ha
    have hmn : valuesMin ((topItems logF te we data par g).map (fun q => q.2)) = a.2 :=
      valuesMin_const _ _ hmapne hvals
    have hmx : valuesMax ((topItems logF te we data par g).map (fun q => q.2)) = a.2 :=
      valuesMax_const _ _ hmapne hvals
    rw [hnormTops] at hpv
    obtain ⟨qv, _, rfl⟩ := List.mem_map.mp hpv
    rw [hmn, hmx]
    exact normWeight_uniform _ _

/-- The adjusted score list of the one-track rock catalog survives the
top-k selection unchanged. -/
lemma rock_topItems :
    topItems log0 tagSet wordSet [trackRock] parStd ("rock") =
      [(("rock"), penBoost tagSet wordSet [trackRock] ("rock")
        (tagContrib log0 tagSet wordSet [trackRock] (("rock"), 1) +
         wordContrib log0 tagSet wordSet [trackRock] (("rock"), 1)))] := by
  rw [topItems, rock_adjList]
  simp [sortBy, insBy, parStd]

/-- Witness for claim C5 at the concrete one-track catalog. -/
theorem claim_C5_witness :
    ((normTops (topItems log0 tagSet wordSet [trackRock] parStd ("rock"))).length =
      (topItems log0 tagSet wordSet [trackRock] parStd ("rock")).length) ∧
    ((topItems log0 tagSet wordSet [trackRock] parStd ("rock")).length ≤
      parStd.topk_typical) ∧
    (∀ pv ∈ normTops (topItems log0 tagSet wordSet [trackRock] parStd ("rock")),
      MIN_W ≤ pv.2 ∧ pv.2 ≤ MAX_W) := by
  have h := claim_C5 log0 tagSet wordSet [trackRock] parStd ("rock")
    (by rw [rock_topItems]; simp)
  exact ⟨h.2.1, h.1, h.2.2.2.2.2.2.1⟩

/-! ### Zero-document genres (claim C9) -/

/-- Claim C9: a genre with zero assigned tracks yields empty typical and
empty rigid outputs; moreover even the unguarded per-genre computation
produces empty typical lines and an empty rigid list, so no division by
zero or error is reachable (the model is total). -/
theorem claim_C9 (logF : ℚ → ℚ) (te we : Track → List String) (data : List Track)
    (par : Params) (g : String) (h : songsOf data g = []) :
    genreArtifacts logF te we data par g = ([], []) ∧
    typicalLines logF te we data par g = [] ∧
    rigidList te we data par g = [] := by
  have hn : nDocs data g = 0 := by rw [nDocs, h]; rfl
  have htk : tagKeys te data g = [] := by rw [tagKeys, h]; rfl
  have hwk : wordKeys we data g = [] := by rw [wordKeys, h]; rfl
  have hft : fracTag te data g = [] := by rw [fracTag, htk]; rfl
  have hfw : fracWord we data par g = [] := by rw [fracWord, hwk]; rfl
  have htr : typicalTagsRaw te data par g = [] := by rw [typicalTagsRaw, hft]; rfl
  have hwr : typicalWordsRaw we data par g = [] := by rw [typicalWordsRaw, hfw]; rfl
  have hraw : rawScores logF te we data par g = [] := by rw [rawScores, htr, hwr]; rfl
  have hadj : adjScores logF te we data par g = [] := by rw [adjScores, hraw]; rfl
  have htop : topItems logF te we data par g = [] := by
    rw [topItems, hadj]
    simp [sortBy]
  have htyp : typicalLines logF te we data par g = [] := by rw [typicalLines, htop]; rfl
  have hrig : rigidList te we data par g = [] := by
    rw [rigidList, rigidFull, hft, hfw]
    simp [dedupFS, dedupAux]
  exact ⟨by rw [genreArtifacts, if_pos hn], htyp, hrig⟩

/-- Witness for claim C9: the genre `metal` has no tracks in the one-track
rock catalog and yields empty artifacts. -/
theorem claim_C9_witness :
    genreArtifacts log0 tagSet wordSet [trackRock] parStd ("metal") = ([], []) :=
  (claim_C9 log0 tagSet wordSet [trackRock] parStd ("metal") (by decide)).1

/-! ### Enumeration-order sensitivity of the artifacts (claim C7) -/

lemma rp_fracTag_fwd :
    fracTag tagSet [trackRockPop] ("rock") = [(("rock"), 1), (("pop"), 1)] := by
  have h1 : tagKeys tagSet [trackRockPop] ("rock") = ["rock", "pop"] := by decide
  have h2 : tagDF tagSet [trackRockPop] ("rock") ("rock") = 1 := by decide
  have h3 : tagDF tagSet [trackRockPop] ("rock") ("pop") = 1 := by decide
  have h4 : nDocs [trackRockPop] ("rock") = 1 := by decide
  rw [fracTag, h1]
  simp [h2, h3, h4]

lemma rp_fracTag_rev :
    fracTag tagSetRev [trackRockPop] ("rock") = [(("pop"), 1), (("rock"), 1)] := by
  have h1 : tagKeys tagSetRev [trackRockPop] ("rock") = ["pop", "rock"] := by decide
  have h2 : tagDF tagSetRev [trackRockPop] ("rock") ("rock") = 1 := by decide
  have h3 : tagDF tagSetRev [trackRockPop] ("rock") ("pop") = 1 := by decide
  have h4 : nDocs [trackRockPop] ("rock") = 1 := by decide
  rw [fracTag, h1]
  simp [h2, h3, h4]

lemma rp_fracWord :
    fracWord wordSet [trackRockPop] parStd ("rock") = [] := by
  have h1 : wordKeys wordSet [trackRockPop] ("rock") = [] := by decide
  rw [fracWord, h1]
  rfl

lemma rp_rigid_fwd :
    rigidList tagSet wordSet [trackRockPop] parStd ("rock") = ["rock", "pop"] := by
  have hfil : (fracTag tagSet [trackRockPop] ("rock")).filter
      (fun tv => decide (parStd.rigid_thr_tags ≤ tv.2)) = [(("rock"), 1), (("pop"), 1)] := by
    rw [rp_fracTag_fwd]
    norm_num [parStd, List.filter]
  rw [rigidList, rigidFull, hfil, rp_fracWord]
  decide

lemma rp_rigid_rev :
    rigidList tagSetRev wordSet [trackRockPop] parStd ("rock") = ["pop", "rock"] := by
  have hfil : (fracTag tagSetRev [trackRockPop] ("rock")).filter
      (fun tv => decide (parStd.rigid_thr_tags ≤ tv.2)) = [(("pop"), 1), (("rock"), 1)] := by
    rw [rp_fracTag_rev]
    norm_num [parStd, List.filter]
  rw [rigidList, rigidFull, hfil, rp_fracWord]
  decide

/-- Claim C7, counterexample: two runs that differ only in the iteration
order of one track's two-element tag set — a permutation, exactly what a
different `PYTHONHASHSEED` produces — write different rigid artifact bytes
for the genre `rock` (`"rock\npop\n"` versus `"pop\nrock\n"`). -/
theorem claim_C7_counterexample :
    List.Perm (tagSetRev trackRockPop) (tagSet trackRockPop) ∧
    rigidBytes tagSet wordSet [trackRockPop] parStd ("rock") ≠
      rigidBytes tagSetRev wordSet [trackRockPop] parStd ("rock") := by
  refine ⟨by decide, ?_⟩
  have hA : rigidBytes tagSet wordSet [trackRockPop] parStd ("rock") = "rock\npop\n" := by
    rw [rigidBytes, rp_rigid_fwd]
    decide
  have hB : rigidBytes tagSetRev wordSet [trackRockPop] parStd ("rock") = "pop\nrock\n" := by
    rw [rigidBytes, rp_rigid_rev]
    decide
  rw [hA, hB]
  decide

lemma contains_congr (l1 l2 : List String) (t : String) (h : t ∈ l1 ↔ t ∈ l2) :
    l1.contains t = l2.contains t := by
  by_cases hm : t ∈ l1
  · have b1 : l1.contains t = true := List.elem_iff.mpr hm
    have b2 : l2.contains t = true := List.elem_iff.mpr (h.mp hm)
    rw [b1, b2]
  · have hm2 : ¬ t ∈ l2 := fun hx => hm (h.mpr hx)
    have b1 : l1.contains t = false := by
      cases hb : l1.contains t
      · rfl
      · exact absurd (List.elem_iff.mp hb) hm
    have b2 : l2.contains t = false := by
      cases hb : l2.contains t
      · rfl
      · exact absurd (List.elem_iff.mp hb) hm2
    rw [b1, b2]

lemma tagDF_congr (te1 te2 : Track → List String) (data : List Track) (g t : String)
    (h : ∀ e ∈ data, ∀ s : String, s ∈ te1 e ↔ s ∈ te2 e) :
    tagDF te1 data g t = tagDF te2 data g t := by
  rw [tagDF, tagDF]
  congr 1
  apply List.filter_congr
  intro e he
  have hed : e ∈ data := (List.mem_filter.mp he).1
  exact contains_congr _ _ _ (h e hed t)

lemma wordDF_congr (we1 we2 : Track → List String) (data : List Track) (g w : String)
    (h : ∀ e ∈ data, ∀ s : String, s ∈ we1 e ↔ s ∈ we2 e) :
    wordDF we1 data g w = wordDF we2 data g w := by
  rw [wordDF, wordDF]
  congr 1
  apply List.filter_congr
  intro e he
  have hed : e ∈ data := (List.mem_filter.mp he).1
  exact contains_congr _ _ _ (h e hed w)

lemma mem_foldl_append (te : Track → List String) (songs : List Track) (x : String) :
    ∀ acc : List String,
      (x ∈ songs.foldl (fun acc e => acc ++ te e) acc ↔
        x ∈ acc ∨ ∃ e ∈ songs, x ∈ te e) := by
  induction songs with
  | nil => intro acc; simp
  | cons s t ih =>
    intro acc
    rw [List.foldl_cons, ih, List.mem_append]
    constructor
    · rintro ((h | h) | ⟨e, he, hx⟩)
      · exact Or.inl h
      · exact Or.inr ⟨s, List.mem_cons_self _ _, h⟩
      · exact Or.inr ⟨e, List.mem_cons_of_mem _ he, hx⟩
    · rintro (h | ⟨e, he, hx⟩)
      · exact Or.inl (Or.inl h)
      · rcases List.mem_cons.mp he with rfl | he
        · exact Or.inl (Or.inr hx)
        · exact Or.inr ⟨e, he, hx⟩

lemma mem_tagKeys (te : Track → List String) (data : List Track) (g x : String) :
    x ∈ tagKeys te data g ↔ ∃ e ∈ songsOf data g, x ∈ te e := by
  rw [tagKeys, mem_dedupFS, mem_foldl_append te (songsOf data g) x []]
  simp

lemma mem_wordKeys (we : Track → List String) (data : List Track) (g x : String) :
    x ∈ wordKeys we data g ↔ ∃ e ∈ songsOf data g, x ∈ we e := by
  rw [wordKeys, mem_dedupFS, mem_foldl_append we (songsOf data g) x []]
  simp

lemma mem_map_fst_filter_pairs (keys : List String) (val : String → ℚ)
    (c : String × ℚ → Bool) (p : String) :
    (p ∈ (((keys.map (fun t => (t, val t))).filter c).map (fun x => x.1))) ↔
      (p ∈ keys ∧ c ((p, val p)) = true) := by
  constructor
  · intro hp
    obtain ⟨x, hxf, hx1⟩ := List.mem_map.mp hp
    obtain ⟨hxm, hxc⟩ := List.mem_filter.mp hxf
    obtain ⟨t, ht, hte⟩ := List.mem_map.mp hxm
    rw [← hte] at hx1 hxc
    subst hx1
    exact ⟨ht, hxc⟩
  · rintro ⟨hk, hc⟩
    refine List.mem_map.mpr ⟨((p, val p)), ?_, rfl⟩
    exact List.mem_filter.mpr ⟨List.mem_map_of_mem _ hk, hc⟩

/-- Claim C7 (amended): the per-run artifacts depend on the iteration order
of Python's per-track tag and word sets (hash-seed dependent), so only runs
with an unchanged enumeration are byte-identical; what *is* invariant under
re-enumeration is the set of rigid candidates before the `max_rigid`
truncation: membership in `rigidFull` is unchanged when each track's tag
set and word set are re-enumerated arbitrarily. -/
theorem claim_C7_amended (te1 te2 we1 we2 : Track → List String) (data : List Track)
    (par : Params) (g p : String)
    (ht : ∀ e ∈ data, ∀ s : String, s ∈ te1 e ↔ s ∈ te2 e)
    (hw : ∀ e ∈ data, ∀ s : String, s ∈ we1 e ↔ s ∈ we2 e) :
    (p ∈ rigidFull te1 we1 data par g ↔ p ∈ rigidFull te2 we2 data par g) := by
  have htagDF : ∀ t, tagDF te1 data g t = tagDF te2 data g t :=
    fun t => tagDF_congr te1 te2 data g t ht
  have hwordDF : ∀ w, wordDF we1 data g w = wordDF we2 data g w :=
    fun w => wordDF_congr we1 we2 data g w hw
  rw [rigidFull, rigidFull, mem_dedupFS, mem_dedupFS, List.mem_append, List.mem_append]
  apply or_congr
  · rw [fracTag, fracTag,
      mem_map_fst_filter_pairs (tagKeys te1 data g)
        (fun t => (tagDF te1 data g t : ℚ) / (nDocs data g : ℚ)) _ p,
      mem_map_fst_filter_pairs (tagKeys te2 data g)
        (fun t => (tagDF te2 data g t : ℚ) / (nDocs data g : ℚ)) _ p]
    rw [htagDF p]
    apply and_congr_left
    intro _
    rw [mem_tagKeys, mem_tagKeys]
    constructor
    · rintro ⟨e, he, hx⟩
      exact ⟨e, he, (ht e (List.mem_of_mem_filter he) p).mp hx⟩
    · rintro ⟨e, he, hx⟩
      exact ⟨e, he, (ht e (List.mem_of_mem_filter he) p).mpr hx⟩
  · rw [fracWord, fracWord,
      mem_map_fst_filter_pairs
        ((wordKeys we1 data g).filter
          (fun w => decide (par.min_df_words ≤ wordDF we1 data g w)))
        (fun w => (wordDF we1 data g w : ℚ) / (nDocs data g : ℚ)) _ p,
      mem_map_fst_filter_pairs
        ((wordKeys we2 data g).filter
          (fun w => decide (par.min_df_words ≤ wordDF we2 data g w)))
        (fun w => (wordDF we2 data g w : ℚ) / (nDocs data g : ℚ)) _ p]
    rw [hwordDF p]
    apply and_congr_left
    intro _
    rw [List.mem_filter, List.mem_filter, hwordDF p, mem_wordKeys, mem_wordKeys]
    apply and_congr_left
    intro _
    constructor
    · rintro ⟨e, he, hx⟩
      exact ⟨e, he, (hw e (List.mem_of_mem_filter he) p).mp hx⟩
    · rintro ⟨e, he, hx⟩
      exact ⟨e, he, (hw e (List.mem_of_mem_filter he) p).mpr hx⟩

/-- Witness for the amended claim C7: re-enumerating the rock/pop track's
tag set in reverse leaves membership of `rock` in the pre-truncation rigid
candidates unchanged. -/
theorem claim_C7_amended_witness :
    (("rock") ∈ rigidFull tagSet wordSet [trackRockPop] parStd ("rock") ↔
     ("rock") ∈ rigidFull tagSetRev wordSet [trackRockPop] parStd ("rock")) :=
  claim_C7_amended tagSet tagSetRev wordSet wordSet [trackRockPop] parStd ("rock") ("rock")
    (fun _ _ _ => (List.mem_reverse).symm) (fun _ _ _ => Iff.rfl)

end Distiller

end DegariMusic
